import Mathlib

/-!
Verification of the StrigidEngine archetype-based entity/component storage
core against its natural-language specification.

The definitions below are a shallow embedding of the C++ sources:

* `Chunk.DATA_SIZE`, `Archetype.buildLayout`, `Archetype.pushEntity`,
  `Archetype.getChunkCount`  — from `Runtime/Memory/Private/Archetype.cpp`
  and `Runtime/Memory/Public/Chunk.h`, `Types.h`;
* `EntityID`, `EntityRecord`, `Registry.allocateEntityID`,
  `Registry.freeEntityID`, `Registry.destroy`,
  `Registry.processDeferredDestructions`, `Registry.createOp`,
  `Registry.getComponent`, `Registry.componentQuery`
  — from `Runtime/Memory/Private/Registry.cpp` and
  `Runtime/Memory/Public/Registry.h`, `EntityRecord.h`, `Signature.h`;
* `FieldProxy` mask/store semantics and the batched lifecycle invoker
  — from `Runtime/Core/Public/FieldProxy.h` and `Schema.h`.

Machine integers are modelled as `Nat`/`Int` with explicit `% 2^w`
where the C++ performs fixed-width arithmetic.
-/

namespace Strigid

/-! ### Chunk and layout constants (Types.h, Chunk.h, Archetype.cpp) -/

/-- `CHUNK_SIZE` from Types.h: `64 * 1024`. -/
def CHUNK_SIZE : Nat := 64 * 1024

/-- `Chunk::DATA_SIZE = CHUNK_SIZE`. -/
def Chunk.DATA_SIZE : Nat := CHUNK_SIZE

/-- `ReservedHeaderSpace` constant inside `Archetype::BuildLayout`. -/
def ReservedHeaderSpace : Nat := 64

/-! ### Archetype entity allocation (Archetype.cpp) -/

/-- The parts of `Archetype` state that entity allocation touches:
`EntitiesPerChunk`, `TotalEntityCount` and the number of allocated chunks
(`Chunks.size()`; chunk contents are irrelevant to the counting claims). -/
structure ArchState where
  entitiesPerChunk : Nat
  totalEntityCount : Nat
  numChunks : Nat
  deriving Repr, DecidableEq

/-- A fresh archetype after construction: no chunks, no entities
(`EntitiesPerChunk` is whatever `BuildLayout` computed). -/
def ArchState.fresh (epc : Nat) : ArchState :=
  { entitiesPerChunk := epc, totalEntityCount := 0, numChunks := 0 }

/-- The `EntitySlot` struct returned by `Archetype::PushEntity`. -/
structure EntitySlot where
  chunkIndex : Nat
  localIndex : Nat
  globalIndex : Nat
  deriving Repr, DecidableEq

/-- `Archetype::PushEntity` (Archetype.cpp lines 170-198): fall back to
`EntitiesPerChunk = 256` when it is zero, allocate a new chunk whenever
`TotalEntityCount % EntitiesPerChunk == 0`, hand out the slot at
`(TotalEntityCount / EPC, TotalEntityCount % EPC)` and increment
`TotalEntityCount`. -/
def ArchState.pushEntity (s : ArchState) : EntitySlot × ArchState :=
  let epc := if s.entitiesPerChunk = 0 then 256 else s.entitiesPerChunk
  let numChunks :=
    if s.totalEntityCount % epc = 0 then s.numChunks + 1 else s.numChunks
  let slot : EntitySlot :=
    { chunkIndex := s.totalEntityCount / epc
      localIndex := s.totalEntityCount % epc
      globalIndex := s.totalEntityCount }
  (slot, { entitiesPerChunk := epc
           totalEntityCount := s.totalEntityCount + 1
           numChunks := numChunks })

/-- Iterate `PushEntity` `n` times. -/
def ArchState.pushN (s : ArchState) : Nat → ArchState
  | 0 => s
  | n + 1 => ((s.pushN n).pushEntity).2

/-- `Archetype::GetChunkCount` (Archetype.cpp lines 153-168). -/
def ArchState.getChunkCount (s : ArchState) (chunkIndex : Nat) : Nat :=
  if s.numChunks = 0 ∨ chunkIndex ≥ s.numChunks ∨ s.entitiesPerChunk = 0 then 0
  else if chunkIndex = s.numChunks - 1 then
    let remainder := s.totalEntityCount % s.entitiesPerChunk
    if remainder = 0 ∧ s.totalEntityCount > 0 then s.entitiesPerChunk
    else remainder
  else s.entitiesPerChunk

/-! ### Archetype layout (Archetype.cpp `BuildLayout`) -/

/-- `FieldMeta` as consumed by `BuildLayout`: size and alignment of one
scalar field of a decomposed component. -/
structure FieldIn where
  size : Nat
  alignment : Nat
  deriving Repr, DecidableEq

/-- One entry of the `Components` vector given to `BuildLayout`, together
with the field decomposition that `ComponentFieldRegistry::GetFields`
would report for its `TypeID` (`none`/`[]` means not decomposed). -/
structure CompIn where
  size : Nat
  alignment : Nat
  fields : List FieldIn
  deriving Repr, DecidableEq

/-- `Archetype::AlignOffset`: `(offset + alignment - 1) & ~(alignment - 1)`
computed in 64-bit `size_t` arithmetic; `~(alignment-1)` as an unsigned
64-bit value is `2^64 - 1 - (alignment - 1)`. -/
def alignOffset (offset alignment : Nat) : Nat :=
  Nat.land ((offset + alignment - 1) % 2 ^ 64) (2 ^ 64 - 1 - (alignment - 1))

/-- `EntitiesPerChunk` as computed by `BuildLayout` for a non-empty
component list: `UsableSpace / TotalStride`, with the 64-byte default
stride when the total stride is zero. -/
def buildLayoutEPC (comps : List CompIn) : Nat :=
  let totalStride := (comps.map CompIn.size).sum
  let usable := Chunk.DATA_SIZE - ReservedHeaderSpace
  if totalStride > 0 then usable / totalStride else usable / 64

/-- Offsets of the field arrays laid out for one component, starting from
`currentOffset`: each field array is aligned up and then advances by
`EntitiesPerChunk * size` (the non-decomposed branch lays out a single
array of the whole component). Returns the offsets in layout order and
the final `currentOffset`. -/
def layoutComp (epc : Nat) (c : CompIn) (currentOffset : Nat) :
    List Nat × Nat :=
  match c.fields with
  | [] =>
    let o := alignOffset currentOffset c.alignment
    ([o], o + epc * c.size)
  | fs =>
    fs.foldl
      (fun (acc : List Nat × Nat) (f : FieldIn) =>
        let o := alignOffset acc.2 f.alignment
        (acc.1 ++ [o], o + epc * f.size))
      ([], currentOffset)

/-- The offsets assigned by the `BuildLayout` loop over all components
(`FieldArrayTemplateCache` order) and the final `TotalChunkDataSize`. -/
def buildLayoutOffsets (epc : Nat) (comps : List CompIn) :
    List Nat × Nat :=
  comps.foldl
    (fun (acc : List Nat × Nat) (c : CompIn) =>
      let r := layoutComp epc c acc.2
      (acc.1 ++ r.1, r.2))
    ([], ReservedHeaderSpace)

/-- `TotalChunkDataSize` computed by `BuildLayout` for a non-empty
component list. -/
def totalChunkDataSize (comps : List CompIn) : Nat :=
  (buildLayoutOffsets (buildLayoutEPC comps) comps).2

/-- The two `assert`s at the end of `BuildLayout` compare
`CachedFieldArrayLayout.size()` and `FieldArrayTemplateCache.size()`
against `TotalFieldArrayCount`; in the embedding all three equal the
number of laid-out arrays, and no other assertion exists in
`BuildLayout`. This predicate holds exactly when no assertion fires. -/
def buildLayoutAssertsPass (comps : List CompIn) : Prop :=
  (buildLayoutOffsets (buildLayoutEPC comps) comps).1.length =
    (comps.map (fun c => match c.fields with
                         | [] => 1
                         | fs => fs.length)).sum

instance (comps : List CompIn) : Decidable (buildLayoutAssertsPass comps) := by
  unfold buildLayoutAssertsPass; infer_instance

/-! ### Helper lemmas about `pushEntity` -/

/-- Number of chunks after `n` pushes: `⌈n / epc⌉`. -/
def chunksFor (n epc : Nat) : Nat :=
  n / epc + if n % epc = 0 then 0 else 1

theorem chunksFor_succ (n epc : Nat) (h : 0 < epc) :
    chunksFor (n + 1) epc =
      if n % epc = 0 then chunksFor n epc + 1 else chunksFor n epc := by
  have hd := Nat.div_add_mod n epc
  have hrlt : n % epc < epc := Nat.mod_lt _ h
  have hsucc : n + 1 = (n % epc + 1) + epc * (n / epc) := by omega
  have hdiv1 : (n + 1) / epc = (n % epc + 1) / epc + n / epc := by
    rw [hsucc]; exact Nat.add_mul_div_left _ _ h
  have hmod1 : (n + 1) % epc = (n % epc + 1) % epc := by
    rw [hsucc]; exact Nat.add_mul_mod_self_left _ _ _
  rcases Nat.lt_or_ge (n % epc + 1) epc with hlt | hge
  · have hd1 : (n % epc + 1) / epc = 0 := Nat.div_eq_of_lt hlt
    have hm1 : (n % epc + 1) % epc = n % epc + 1 := Nat.mod_eq_of_lt hlt
    simp only [chunksFor, hdiv1, hmod1, hd1, hm1]
    rcases Nat.eq_zero_or_pos (n % epc) with hr0 | hrp
    · simp [hr0]
    · have h1 : n % epc ≠ 0 := by omega
      have h2 : n % epc + 1 ≠ 0 := by omega
      simp [h1, h2]
  · have heq : n % epc + 1 = epc := by omega
    have hd1 : (n % epc + 1) / epc = 1 := by rw [heq, Nat.div_self h]
    have hm1 : (n % epc + 1) % epc = 0 := by rw [heq, Nat.mod_self]
    simp only [chunksFor, hdiv1, hmod1, hd1, hm1]
    rcases Nat.eq_zero_or_pos (n % epc) with hr0 | hrp
    · -- here epc = 1 and every count divides
      simp [hr0]; omega
    · have h1 : n % epc ≠ 0 := by omega
      simp [h1]; omega

theorem pushN_fresh (epc : Nat) (h : 1 ≤ epc) :
    ∀ n, (ArchState.fresh epc).pushN n =
      { entitiesPerChunk := epc
        totalEntityCount := n
        numChunks := chunksFor n epc } := by
  intro n
  induction n with
  | zero =>
    simp [ArchState.pushN, ArchState.fresh, chunksFor]
  | succ n ih =>
    have hepc : epc ≠ 0 := by omega
    simp only [ArchState.pushN, ih, ArchState.pushEntity, hepc, if_false]
    rw [chunksFor_succ n epc (by omega)]

theorem sum_map_range_const (f : Nat → Nat) (c : Nat) :
    ∀ m, (∀ i, i < m → f i = c) →
      ((List.range m).map f).sum = m * c := by
  intro m
  induction m with
  | zero => simp
  | succ m ih =>
    intro h
    rw [List.range_succ, List.map_append, List.sum_append]
    rw [ih (fun i hi => h i (by omega))]
    simp [h m (by omega), Nat.succ_mul]

theorem sum_getChunkCount (s : ArchState) :
    ((List.range s.numChunks).map s.getChunkCount).sum =
      (s.numChunks - 1) * s.entitiesPerChunk +
        (if s.numChunks = 0 then 0 else s.getChunkCount (s.numChunks - 1)) := by
  rcases Nat.eq_zero_or_pos s.numChunks with h0 | hpos
  · simp [h0]
  · have : s.numChunks = (s.numChunks - 1) + 1 := by omega
    rw [this, List.range_succ, List.map_append, List.sum_append]
    have hfull : ∀ i, i < s.numChunks - 1 →
        s.getChunkCount i = s.entitiesPerChunk := by
      intro i hi
      unfold ArchState.getChunkCount
      have h1 : ¬ (s.numChunks = 0 ∨ i ≥ s.numChunks ∨ s.entitiesPerChunk = 0)
          ∨ s.entitiesPerChunk = 0 := by
        by_cases he : s.entitiesPerChunk = 0
        · right; exact he
        · left; push_neg; omega
      rcases h1 with h1 | h1
      · rw [if_neg h1, if_neg (by omega)]
      · -- epc = 0: both sides are 0
        rw [if_pos (by right; right; exact h1), h1]
    rw [sum_map_range_const _ _ _ hfull]
    have : s.numChunks - 1 + 1 - 1 = s.numChunks - 1 := by omega
    simp [this, if_neg (by omega : ¬ s.numChunks = 0)]

/-! ### C2: dense packing -/

/-- C2: for every Archetype with `EntitiesPerChunk ≥ 1`, after any
sequence of `n` `PushEntity` calls: every non-last chunk reports exactly
`EntitiesPerChunk`, the last chunk reports `n % EntitiesPerChunk` (or a
full `EntitiesPerChunk` when that remainder is 0 and `n > 0`), and the
chunk counts sum to `TotalEntityCount`, which equals `n`. -/
theorem C2_dense_packing (epc n : Nat) (h : 1 ≤ epc) :
    (∀ i, i + 1 < ((ArchState.fresh epc).pushN n).numChunks →
        ((ArchState.fresh epc).pushN n).getChunkCount i = epc) ∧
    (((ArchState.fresh epc).pushN n).numChunks ≠ 0 →
        ((ArchState.fresh epc).pushN n).getChunkCount
            (((ArchState.fresh epc).pushN n).numChunks - 1) =
          if n % epc = 0 ∧ 0 < n then epc else n % epc) ∧
    ((List.range ((ArchState.fresh epc).pushN n).numChunks).map
        ((ArchState.fresh epc).pushN n).getChunkCount).sum =
      ((ArchState.fresh epc).pushN n).totalEntityCount ∧
    ((ArchState.fresh epc).pushN n).totalEntityCount = n := by
  have hepc : epc ≠ 0 := by omega
  have hs := pushN_fresh epc h n
  rw [hs]
  have hd := Nat.div_add_mod n epc
  have hrlt : n % epc < epc := Nat.mod_lt _ (by omega)
  have hC : chunksFor n epc = n / epc + if n % epc = 0 then 0 else 1 := rfl
  refine ⟨?_, ?_, ?_, rfl⟩
  · intro i hi
    have hi' : i + 1 < chunksFor n epc := hi
    simp only [ArchState.getChunkCount]
    rw [if_neg (by push_neg; exact ⟨by omega, by omega, hepc⟩),
      if_neg (by omega)]
  · intro hne
    have hne' : chunksFor n epc ≠ 0 := hne
    simp only [ArchState.getChunkCount]
    rw [if_neg (by push_neg; exact ⟨hne', by omega, hepc⟩),
      if_pos trivial]
  · rw [sum_getChunkCount]
    simp only [ArchState.getChunkCount]
    rcases Nat.eq_zero_or_pos n with rfl | hn
    · have hC0 : chunksFor 0 epc = 0 := by simp [chunksFor]
      simp [hC0]
    · have hq1 : n % epc = 0 → n / epc ≠ 0 := by
        intro hr0 hq0
        rw [hq0, Nat.mul_zero] at hd
        omega
      have hCne : chunksFor n epc ≠ 0 := by
        by_cases hr0 : n % epc = 0
        · rw [hC, hr0]
          simpa using hq1 hr0
        · rw [hC]
          simp [hr0]
      rw [if_neg hCne,
        if_neg (by push_neg; exact ⟨hCne, by omega, hepc⟩),
        if_pos trivial]
      by_cases hr0 : n % epc = 0
      · rw [if_pos ⟨hr0, hn⟩, hC, hr0, if_pos rfl, Nat.add_zero]
        rcases Nat.exists_eq_succ_of_ne_zero (hq1 hr0) with ⟨m, hm⟩
        have key : (n / epc - 1) * epc + epc = epc * (n / epc) := by
          rw [hm]
          calc (m + 1 - 1) * epc + epc = m * epc + epc := by
                rw [Nat.add_sub_cancel]
            _ = epc * m + epc := by rw [Nat.mul_comm]
            _ = epc * (m + 1) := by rw [Nat.mul_succ]
        omega
      · rw [if_neg (by simp [hr0]), hC, if_neg hr0, Nat.add_sub_cancel]
        have key : n / epc * epc = epc * (n / epc) := Nat.mul_comm _ _
        omega

/-- Witness for C2 at `EntitiesPerChunk = 3`, `n = 7` pushes. -/
theorem C2_dense_packing_witness :
    1 ≤ 3 ∧
    ((∀ i, i + 1 < ((ArchState.fresh 3).pushN 7).numChunks →
        ((ArchState.fresh 3).pushN 7).getChunkCount i = 3) ∧
    (((ArchState.fresh 3).pushN 7).numChunks ≠ 0 →
        ((ArchState.fresh 3).pushN 7).getChunkCount
            (((ArchState.fresh 3).pushN 7).numChunks - 1) =
          if 7 % 3 = 0 ∧ 0 < 7 then 3 else 7 % 3) ∧
    ((List.range ((ArchState.fresh 3).pushN 7).numChunks).map
        ((ArchState.fresh 3).pushN 7).getChunkCount).sum =
      ((ArchState.fresh 3).pushN 7).totalEntityCount ∧
    ((ArchState.fresh 3).pushN 7).totalEntityCount = 7) :=
  ⟨by decide, C2_dense_packing 3 7 (by decide)⟩

/-! ### C5: EntitiesPerChunk formula -/

/-- C5 counterexample: a non-empty component list with positive total
stride (one 65473-byte component) for which `BuildLayout` leaves
`EntitiesPerChunk = 0` — there is no minimum-of-1 floor in `BuildLayout`,
refuting the claim that it never leaves the value at 0. -/
theorem C5_epc_zero_counterexample :
    ([⟨65473, 1, []⟩] : List CompIn) ≠ [] ∧
    0 < (([⟨65473, 1, []⟩] : List CompIn).map CompIn.size).sum ∧
    buildLayoutEPC [⟨65473, 1, []⟩] = 0 := by
  refine ⟨by simp, by simp, ?_⟩
  decide

/-- C5 (amended): for a non-empty component list `BuildLayout` sets
`EntitiesPerChunk = ⌊(Chunk::DATA_SIZE − 64) / totalStride⌋`, falling
back to a 64-byte stride when the stride is 0; **no** minimum of 1 is
applied there (the value is 0 whenever the stride exceeds
`Chunk::DATA_SIZE − 64`) — the zero guard lives in `PushEntity`, which
substitutes 256 when `EntitiesPerChunk` is 0. -/
theorem C5_epc_formula (comps : List CompIn) (_h : comps ≠ []) :
    (buildLayoutEPC comps =
      if 0 < (comps.map CompIn.size).sum
      then (Chunk.DATA_SIZE - ReservedHeaderSpace) /
        (comps.map CompIn.size).sum
      else (Chunk.DATA_SIZE - ReservedHeaderSpace) / 64) ∧
    (buildLayoutEPC comps = 0 →
      (((ArchState.fresh (buildLayoutEPC comps)).pushEntity).2).entitiesPerChunk
        = 256) := by
  refine ⟨rfl, ?_⟩
  intro h0
  rw [h0]
  rfl

/-- Witness for C5 (amended) at the 52-byte-stride component set of the
spec's scenario 3. -/
theorem C5_epc_formula_witness :
    ([⟨52, 4, []⟩] : List CompIn) ≠ [] ∧
    ((buildLayoutEPC [⟨52, 4, []⟩] =
      if 0 < (([⟨52, 4, []⟩] : List CompIn).map CompIn.size).sum
      then (Chunk.DATA_SIZE - ReservedHeaderSpace) /
        (([⟨52, 4, []⟩] : List CompIn).map CompIn.size).sum
      else (Chunk.DATA_SIZE - ReservedHeaderSpace) / 64) ∧
    (buildLayoutEPC [⟨52, 4, []⟩] = 0 →
      (((ArchState.fresh (buildLayoutEPC [⟨52, 4, []⟩])).pushEntity).2).entitiesPerChunk
        = 256)) :=
  ⟨by decide, C5_epc_formula [⟨52, 4, []⟩] (by decide)⟩

/-! ### C6: layout capacity -/

/-- C6 counterexample: a component set `BuildLayout` accepts without any
assertion firing whose computed layout ends at 65537, one byte past
`Chunk::DATA_SIZE` — alignment padding (1 byte before the 2-byte-aligned
field array) pushes the final field array out of the chunk. -/
theorem C6_overflow_counterexample :
    totalChunkDataSize [⟨192, 1, [⟨1, 1⟩, ⟨2, 2⟩, ⟨189, 1⟩]⟩] = 65537 ∧
    Chunk.DATA_SIZE < totalChunkDataSize [⟨192, 1, [⟨1, 1⟩, ⟨2, 2⟩, ⟨189, 1⟩]⟩] ∧
    buildLayoutAssertsPass [⟨192, 1, [⟨1, 1⟩, ⟨2, 2⟩, ⟨189, 1⟩]⟩] := by
  refine ⟨by decide, by decide, by decide⟩

/-- Per-component number of laid-out field arrays. -/
def arrayCount (c : CompIn) : Nat :=
  match c.fields with
  | [] => 1
  | fs => fs.length

/-- Per-component number of bytes of array data per entity actually laid
out (field sizes for decomposed components, the struct size otherwise). -/
def arraySizes (c : CompIn) : Nat :=
  match c.fields with
  | [] => c.size
  | fs => (fs.map FieldIn.size).sum

theorem fieldsFold_fst_length (epc : Nat) :
    ∀ (fs : List FieldIn) (l : List Nat) (off : Nat),
      ((fs.foldl
        (fun (acc : List Nat × Nat) (f : FieldIn) =>
          let o := alignOffset acc.2 f.alignment
          (acc.1 ++ [o], o + epc * f.size)) (l, off)).1).length =
        l.length + fs.length := by
  intro fs
  induction fs with
  | nil => intro l off; simp
  | cons f fs ih =>
    intro l off
    simp only [List.foldl_cons]
    rw [ih]
    simp
    omega

theorem layoutComp_fst_length (epc : Nat) (c : CompIn) (off : Nat) :
    (layoutComp epc c off).1.length = arrayCount c := by
  unfold layoutComp arrayCount
  cases hf : c.fields with
  | nil => simp
  | cons f fs =>
    have := fieldsFold_fst_length epc (f :: fs) [] off
    simpa using this

theorem buildFold_fst_length (epc : Nat) :
    ∀ (comps : List CompIn) (l : List Nat) (off : Nat),
      ((comps.foldl
        (fun (acc : List Nat × Nat) (c : CompIn) =>
          let r := layoutComp epc c acc.2
          (acc.1 ++ r.1, r.2)) (l, off)).1).length =
        l.length + (comps.map arrayCount).sum := by
  intro comps
  induction comps with
  | nil => intro l off; simp
  | cons c comps ih =>
    intro l off
    simp only [List.foldl_cons]
    rw [ih]
    simp [layoutComp_fst_length]
    omega

/-- `BuildLayout` never fires an assertion: its only `assert`s are the
cache-size consistency checks, which always hold. -/
theorem buildLayoutAssertsPass_always (comps : List CompIn) :
    buildLayoutAssertsPass comps := by
  unfold buildLayoutAssertsPass buildLayoutOffsets
  rw [buildFold_fst_length]
  simp only [List.length_nil, Nat.zero_add]
  congr 1

theorem alignOffset_one (off : Nat) (h : off < 2 ^ 64) :
    alignOffset off 1 = off := by
  unfold alignOffset
  have h1 : off + 1 - 1 = off := by omega
  have h2 : (2 : Nat) ^ 64 - 1 - (1 - 1) = 2 ^ 64 - 1 := by norm_num
  rw [h1, h2, Nat.mod_eq_of_lt h]
  calc Nat.land off (2 ^ 64 - 1) = off &&& 2 ^ 64 - 1 := rfl
    _ = off % 2 ^ 64 := Nat.and_pow_two_sub_one_eq_mod off 64
    _ = off := Nat.mod_eq_of_lt h

theorem fieldsFold_snd (epc : Nat) :
    ∀ (fs : List FieldIn) (l : List Nat) (off : Nat),
      (∀ f ∈ fs, f.alignment = 1) →
      off + epc * (fs.map FieldIn.size).sum < 2 ^ 64 →
      (fs.foldl
        (fun (acc : List Nat × Nat) (f : FieldIn) =>
          let o := alignOffset acc.2 f.alignment
          (acc.1 ++ [o], o + epc * f.size)) (l, off)).2 =
        off + epc * (fs.map FieldIn.size).sum := by
  intro fs
  induction fs with
  | nil => intro l off _ _; simp
  | cons f fs ih =>
    intro l off ha hb
    have hf1 : f.alignment = 1 := ha f (by simp)
    have hofflt : off < 2 ^ 64 := by
      have : off ≤ off + epc * ((f :: fs).map FieldIn.size).sum :=
        Nat.le_add_right _ _
      omega
    simp only [List.foldl_cons, hf1, alignOffset_one off hofflt]
    rw [ih _ _ (fun g hg => ha g (by simp [hg]))]
    · rw [List.map_cons, List.sum_cons, Nat.mul_add]
      omega
    · rw [List.map_cons, List.sum_cons, Nat.mul_add] at hb
      omega

theorem layoutComp_snd (epc : Nat) (c : CompIn) (off : Nat)
    (ha : c.alignment = 1 ∧ ∀ f ∈ c.fields, f.alignment = 1)
    (hb : off + epc * arraySizes c < 2 ^ 64) :
    (layoutComp epc c off).2 = off + epc * arraySizes c := by
  unfold layoutComp arraySizes
  rcases ha with ⟨hc, hfs⟩
  cases hf : c.fields with
  | nil =>
    have hofflt : off < 2 ^ 64 := by
      have : off ≤ off + epc * arraySizes c := Nat.le_add_right _ _
      omega
    simp only [hc, alignOffset_one off hofflt]
  | cons f fs =>
    have := fieldsFold_snd epc (f :: fs) [] off
      (fun g hg => hfs g (hf ▸ hg))
      (by unfold arraySizes at hb; rw [hf] at hb; exact hb)
    simpa using this

theorem buildFold_snd (epc : Nat) :
    ∀ (comps : List CompIn) (l : List Nat) (off : Nat),
      (∀ c ∈ comps, c.alignment = 1 ∧ ∀ f ∈ c.fields, f.alignment = 1) →
      off + epc * (comps.map arraySizes).sum < 2 ^ 64 →
      (comps.foldl
        (fun (acc : List Nat × Nat) (c : CompIn) =>
          let r := layoutComp epc c acc.2
          (acc.1 ++ r.1, r.2)) (l, off)).2 =
        off + epc * (comps.map arraySizes).sum := by
  intro comps
  induction comps with
  | nil => intro l off _ _; simp
  | cons c comps ih =>
    intro l off ha hb
    rw [List.map_cons, List.sum_cons, Nat.mul_add] at hb ⊢
    have hc1 : (layoutComp epc c off).2 = off + epc * arraySizes c := by
      apply layoutComp_snd epc c off (ha c (by simp))
      omega
    simp only [List.foldl_cons, hc1]
    rw [ih _ _ (fun d hd => ha d (by simp [hd])) (by omega)]
    omega

/-- C6 (amended): `BuildLayout` performs **no** capacity check — its only
assertions are the cache-size consistency checks, which always pass — and
an accepted layout can exceed `Chunk::DATA_SIZE` when alignment padding
occurs (see the counterexample). In the padding-free case (every laid-out
array has alignment 1, and each decomposed component's field sizes sum to
at most its struct size) the layout does fit:
`TotalChunkDataSize ≤ Chunk::DATA_SIZE`. -/
theorem C6_layout_fit (comps : List CompIn)
    (h1 : ∀ c ∈ comps, c.alignment = 1 ∧ ∀ f ∈ c.fields, f.alignment = 1)
    (h2 : ∀ c ∈ comps, (c.fields.map FieldIn.size).sum ≤ c.size) :
    (∀ cs : List CompIn, buildLayoutAssertsPass cs) ∧
    totalChunkDataSize comps ≤ Chunk.DATA_SIZE := by
  refine ⟨buildLayoutAssertsPass_always, ?_⟩
  have hsizes : ∀ c ∈ comps, arraySizes c ≤ c.size := by
    intro c hc
    unfold arraySizes
    cases hf : c.fields with
    | nil => exact Nat.le_refl _
    | cons f fs =>
      have hle := h2 c hc
      rw [hf] at hle
      exact hle
  have hS : (comps.map arraySizes).sum ≤ (comps.map CompIn.size).sum :=
    List.sum_le_sum hsizes
  have hepcS : buildLayoutEPC comps * (comps.map arraySizes).sum ≤ 65472 := by
    rcases Nat.eq_zero_or_pos ((comps.map CompIn.size).sum) with hts | hts
    · have : (comps.map arraySizes).sum = 0 := by omega
      rw [this, Nat.mul_zero]
      omega
    · have hepc : buildLayoutEPC comps =
          65472 / (comps.map CompIn.size).sum := by
        unfold buildLayoutEPC Chunk.DATA_SIZE CHUNK_SIZE ReservedHeaderSpace
        rw [if_pos hts]
      calc buildLayoutEPC comps * (comps.map arraySizes).sum
          ≤ buildLayoutEPC comps * (comps.map CompIn.size).sum :=
            Nat.mul_le_mul_left _ hS
        _ = 65472 / (comps.map CompIn.size).sum *
              (comps.map CompIn.size).sum := by rw [hepc]
        _ ≤ 65472 := Nat.div_mul_le_self _ _
  unfold totalChunkDataSize buildLayoutOffsets
  rw [buildFold_snd _ _ _ _ h1 (by unfold ReservedHeaderSpace; omega)]
  unfold ReservedHeaderSpace Chunk.DATA_SIZE CHUNK_SIZE
  omega

/-- Witness for C6 (amended) at a padding-free two-field component. -/
theorem C6_layout_fit_witness :
    (∀ c ∈ ([⟨8, 1, [⟨4, 1⟩, ⟨4, 1⟩]⟩] : List CompIn),
        c.alignment = 1 ∧ ∀ f ∈ c.fields, f.alignment = 1) ∧
    (∀ c ∈ ([⟨8, 1, [⟨4, 1⟩, ⟨4, 1⟩]⟩] : List CompIn),
        (c.fields.map FieldIn.size).sum ≤ c.size) ∧
    ((∀ cs : List CompIn, buildLayoutAssertsPass cs) ∧
      totalChunkDataSize [⟨8, 1, [⟨4, 1⟩, ⟨4, 1⟩]⟩] ≤ Chunk.DATA_SIZE) :=
  ⟨by decide, by decide,
    C6_layout_fit [⟨8, 1, [⟨4, 1⟩, ⟨4, 1⟩]⟩] (by decide) (by decide)⟩

/-! ### EntityID and EntityRecord (Types.h, EntityRecord.h) -/

/-- `EntityID`: 64-bit packed handle. Bitfield layout (Types.h):
`Index:20 | Generation:16 | TypeID:12 | OwnerID:8 | IsStatic:1 | MetaFlags:7`. -/
structure EntityID where
  value : Nat
  deriving Repr, DecidableEq

/-- `EntityID::GetIndex` — low 20 bits. -/
def EntityID.getIndex (id : EntityID) : Nat := id.value % 2 ^ 20

/-- `EntityID::GetGeneration` — bits 20..35. -/
def EntityID.getGeneration (id : EntityID) : Nat := id.value / 2 ^ 20 % 2 ^ 16

/-- `EntityID::GetTypeID` — bits 36..47. -/
def EntityID.getTypeID (id : EntityID) : Nat := id.value / 2 ^ 36 % 2 ^ 12

/-- `EntityID::IsValid` — `Value != 0`. -/
def EntityID.isValid (id : EntityID) : Bool := id.value != 0

/-- `EntityID::Invalid` — `Value = 0`. -/
def EntityID.invalid : EntityID := ⟨0⟩

/-- Building an `EntityID` by bitfield assignment as `AllocateEntityID`
does (each field store truncates to its width). -/
def EntityID.make (index generation typeID ownerID : Nat) : EntityID :=
  ⟨index % 2 ^ 20 + generation % 2 ^ 16 * 2 ^ 20 +
    typeID % 2 ^ 12 * 2 ^ 36 + ownerID % 2 ^ 8 * 2 ^ 48⟩

/-- `EntityRecord` (EntityRecord.h): the two non-owning pointers are
modelled by their nullness, plus the chunk-local index and generation. -/
structure EntityRecord where
  archValid : Bool
  chunkValid : Bool
  index : Nat
  generation : Nat
  deriving Repr, DecidableEq

instance : Inhabited EntityRecord := ⟨⟨false, false, 0, 0⟩⟩

/-- `EntityRecord::IsValid` — `Arch != nullptr && TargetChunk != nullptr`. -/
def EntityRecord.isValid (r : EntityRecord) : Bool := r.archValid && r.chunkValid

/-! ### Registry state (Registry.h / Registry.cpp) -/

/-- The registry state touched by allocation, destruction and lookup:
the `EntityIndex` table, the FIFO `FreeIndices` queue (head = front),
`NextEntityIndex`, the `PendingDestructions` list, and the single
archetype entities are pushed into. -/
structure RegState where
  entityIndex : List EntityRecord
  freeIndices : List Nat
  nextEntityIndex : Nat
  pending : List EntityID
  arch : ArchState
  deriving Repr, DecidableEq

/-- A fresh registry: `NextEntityIndex` starts at 1 (0 is reserved for
the invalid handle). -/
def RegState.init (epc : Nat) : RegState :=
  ⟨[], [], 1, [], ArchState.fresh epc⟩

/-- Record generation stored at table slot `i` (0 for the
default-constructed record). -/
def RegState.genAt (s : RegState) (i : Nat) : Nat :=
  (s.entityIndex.getD i default).generation

/-- Whether the record at slot `i` is valid. -/
def RegState.validAt (s : RegState) (i : Nat) : Bool :=
  (s.entityIndex.getD i default).isValid

/-- The 16-bit generation given out when a free-list slot whose stored
generation is `g` is recycled: increment as `uint16_t`, substituting 1
when the increment wrapped to 0. -/
def wrapSucc (g : Nat) : Nat :=
  if (g + 1) % 2 ^ 16 = 0 then 1 else (g + 1) % 2 ^ 16

/-- `Registry::AllocateEntityID` (Registry.cpp lines 51-84). -/
def RegState.allocateEntityID (s : RegState) (typeID : Nat) :
    EntityID × RegState :=
  match s.freeIndices with
  | index :: rest =>
    (EntityID.make index (wrapSucc (s.genAt index)) typeID 0,
      { s with freeIndices := rest })
  | [] =>
    (EntityID.make s.nextEntityIndex 1 typeID 0,
      { s with nextEntityIndex := s.nextEntityIndex + 1 })

/-- The table index the next `AllocateEntityID` call will hand out
(after the 20-bit truncation `EntityID.Index` applies). -/
def RegState.allocIndex (s : RegState) : Nat :=
  match s.freeIndices with
  | index :: _ => index % 2 ^ 20
  | [] => s.nextEntityIndex % 2 ^ 20

/-- The `EntityIndex` update in `Registry::Create` (Registry.h lines
137-148): grow the table to `Index * 2` when `Index` is out of range,
then store `{Arch, Chunk, LocalIndex, Generation}`. -/
def RegState.updateRecordOnCreate (s : RegState) (id : EntityID)
    (slot : EntitySlot) : RegState :=
  let index := id.getIndex
  let grown :=
    if s.entityIndex.length ≤ index then
      s.entityIndex ++
        List.replicate (index * 2 - s.entityIndex.length) default
    else s.entityIndex
  let rec0 : EntityRecord :=
    ⟨true, true, slot.localIndex % 2 ^ 16, id.getGeneration⟩
  { s with entityIndex := grown.set index rec0 }

/-- `Registry::Create` for a registered type: allocate an `EntityID`,
push a slot in the archetype, record the location. -/
def RegState.create (s : RegState) (typeID : Nat) : EntityID × RegState :=
  let a := s.allocateEntityID typeID
  let p := a.2.arch.pushEntity
  (a.1, (({ a.2 with arch := p.2 } : RegState)).updateRecordOnCreate a.1 p.1)

/-- `Registry::Destroy` — append to `PendingDestructions` only. -/
def RegState.destroy (s : RegState) (id : EntityID) : RegState :=
  { s with pending := s.pending ++ [id] }

/-- `Registry::FreeEntityID` (Registry.cpp lines 86-100): bounds check,
push the index on the free list, null the record's pointers (leaving
`Index` and `Generation` untouched). -/
def RegState.freeEntityID (s : RegState) (id : EntityID) : RegState :=
  let index := id.getIndex
  if s.entityIndex.length ≤ index then s
  else
    { s with
      freeIndices := s.freeIndices ++ [index],
      entityIndex :=
        s.entityIndex.set index
          { s.entityIndex.getD index default with
            archValid := false, chunkValid := false } }

/-- One iteration of the `ProcessDeferredDestructions` loop body
(Registry.cpp lines 113-139). -/
def RegState.processOne (s : RegState) (id : EntityID) : RegState :=
  if ¬ id.isValid then s
  else if s.entityIndex.length ≤ id.getIndex then s
  else if (s.entityIndex.getD id.getIndex default).generation ≠
      id.getGeneration then s
  else if ¬ (s.entityIndex.getD id.getIndex default).isValid then s
  else s.freeEntityID id

/-- `PendingDestructions.clear()` at the end of
`ProcessDeferredDestructions`. -/
def RegState.clearPending (s : RegState) : RegState :=
  { s with pending := [] }

/-- `Registry::ProcessDeferredDestructions` (Registry.cpp lines
109-144): run the loop body for each pending id, then clear the list. -/
def RegState.processDeferredDestructions (s : RegState) : RegState :=
  (s.pending.foldl RegState.processOne s).clearPending

/-- `Registry::GetComponent<T>` (Registry.h lines 153-182). The final
archetype/chunk dereference (`GetComponentArray` + indexing) is
abstracted as `deref`; it is reached only after every validation has
passed. -/
def getComponent (tbl : List EntityRecord) (id : EntityID)
    (deref : EntityRecord → Option Nat) : Option Nat :=
  if ¬ id.isValid then none
  else if tbl.length ≤ id.getIndex then none
  else if (tbl.getD id.getIndex default).generation ≠ id.getGeneration then
    none
  else if ¬ (tbl.getD id.getIndex default).isValid then none
  else deref (tbl.getD id.getIndex default)

/-- Operations a caller can perform on the registry between a
destruction and the reallocation of its index. -/
inductive RegOp where
  | create (typeID : Nat)
  | destroy (id : EntityID)
  | process
  deriving Repr, DecidableEq

def RegState.applyOp (s : RegState) : RegOp → RegState
  | .create t => (s.create t).2
  | .destroy id => s.destroy id
  | .process => s.processDeferredDestructions

def RegState.applyOps (s : RegState) (ops : List RegOp) : RegState :=
  ops.foldl RegState.applyOp s

/-- `avoidsB s ops i = true` when no `create` in `ops` allocates table
index `i` (i.e. `i` is not reused before the allocation under study). -/
def RegState.avoidsB : RegState → List RegOp → Nat → Bool
  | _, [], _ => true
  | s, op :: rest, i =>
    (match op with
     | .create _ => s.allocIndex != i
     | _ => true) && (s.applyOp op).avoidsB rest i

/-! ### C3: stale-handle rejection in GetComponent -/

/-- C3: `GetComponent` returns null for the invalid handle, an
out-of-range index, or a generation mismatch, without performing the
archetype/chunk dereference (the result is `none` for *every* possible
`deref`); and a non-null result is only produced when all of these
validations pass. -/
theorem C3_stale_rejection (tbl : List EntityRecord) (id : EntityID) :
    (∀ deref : EntityRecord → Option Nat,
      (id.isValid = false ∨ tbl.length ≤ id.getIndex ∨
        (tbl.getD id.getIndex default).generation ≠ id.getGeneration) →
      getComponent tbl id deref = none) ∧
    (∀ deref : EntityRecord → Option Nat,
      (getComponent tbl id deref).isSome = true →
      id.isValid = true ∧ id.getIndex < tbl.length ∧
        (tbl.getD id.getIndex default).generation = id.getGeneration) := by
  constructor
  · intro deref h
    unfold getComponent
    split_ifs with h1 h2 h3 h4
    any_goals rfl
    exfalso
    rcases h with h | h | h
    · simp [h] at h1
    · exact h2 h
    · exact h3 h
  · intro deref h
    unfold getComponent at h
    split_ifs at h with h1 h2 h3 h4
    all_goals try exact absurd h (by decide)
    refine ⟨h1, by omega, by push_neg at h3; exact h3⟩

/-- Witness for C3: a generation-4 handle against a stored generation-5
record is rejected regardless of the dereference function. -/
theorem C3_stale_rejection_witness :
    getComponent [⟨true, true, 0, 0⟩, ⟨true, true, 0, 5⟩]
      (EntityID.make 1 4 0 0) (fun _ => some 7) = none :=
  (C3_stale_rejection [⟨true, true, 0, 0⟩, ⟨true, true, 0, 5⟩]
      (EntityID.make 1 4 0 0)).1 (fun _ => some 7) (by decide)

/-! ### Helper lemmas for the registry state machine -/

theorem getD_set_ne {α : Type} {d : α} (l : List α) (i j : Nat)
    (a : α) (h : i ≠ j) : (l.set i a).getD j d = l.getD j d := by
  simp [List.getD_eq_getElem?_getD, List.getElem?_set_ne h]

theorem getD_set_self {α : Type} {d : α} (l : List α) (i : Nat)
    (a : α) (h : i < l.length) : (l.set i a).getD i d = a := by
  simp [List.getD_eq_getElem?_getD, List.getElem?_set_self h]

theorem getD_append_replicate (l : List EntityRecord) (k i : Nat) :
    (l ++ List.replicate k (default : EntityRecord)).getD i default =
      l.getD i default := by
  rcases Nat.lt_or_ge i l.length with hlt | hge
  · simp [List.getD_eq_getElem?_getD, List.getElem?_append_left hlt]
  · rw [List.getD_eq_getElem?_getD, List.getD_eq_getElem?_getD,
      List.getElem?_append_right hge]
    have h1 : l[i]? = none := by
      rw [List.getElem?_eq_none_iff]; omega
    rw [h1]
    rcases Nat.lt_or_ge (i - l.length) k with h2 | h2
    · simp [List.getElem?_replicate, h2]
    · have : (List.replicate k (default : EntityRecord))[i - l.length]? =
          none := by
        rw [List.getElem?_eq_none_iff]; simp; omega
      simp [this]

theorem freeEntityID_entityLen (s : RegState) (id : EntityID) :
    (s.freeEntityID id).entityIndex.length = s.entityIndex.length := by
  simp only [RegState.freeEntityID]
  split_ifs <;> simp

theorem freeEntityID_genAt (s : RegState) (id : EntityID) (i : Nat) :
    (s.freeEntityID id).genAt i = s.genAt i := by
  simp only [RegState.freeEntityID, RegState.genAt]
  split_ifs with h
  · rfl
  · by_cases hi : id.getIndex = i
    · subst hi
      simp only
      rw [getD_set_self _ _ _ (by omega)]
    · simp only
      rw [getD_set_ne _ _ _ _ hi]

theorem freeEntityID_freeMono (s : RegState) (id : EntityID) (j : Nat)
    (h : j ∈ s.freeIndices) : j ∈ (s.freeEntityID id).freeIndices := by
  simp only [RegState.freeEntityID]
  split_ifs <;> simp [h]

theorem freeEntityID_freeBound (s : RegState) (id : EntityID)
    (h : ∀ j ∈ s.freeIndices, j < 2 ^ 20) :
    ∀ j ∈ (s.freeEntityID id).freeIndices, j < 2 ^ 20 := by
  simp only [RegState.freeEntityID]
  split_ifs
  · exact h
  · intro j hj
    simp only [List.mem_append, List.mem_singleton] at hj
    rcases hj with hj | hj
    · exact h j hj
    · subst hj
      exact Nat.mod_lt _ (by norm_num)

theorem freeEntityID_validAt_other (s : RegState) (id : EntityID) (i : Nat)
    (hi : id.getIndex ≠ i) :
    (s.freeEntityID id).validAt i = s.validAt i := by
  simp only [RegState.freeEntityID, RegState.validAt]
  split_ifs with h
  · rfl
  · simp only
    rw [getD_set_ne _ _ _ _ hi]

theorem freeEntityID_frees (s : RegState) (id : EntityID)
    (h : id.getIndex < s.entityIndex.length) :
    (s.freeEntityID id).validAt id.getIndex = false ∧
      id.getIndex ∈ (s.freeEntityID id).freeIndices := by
  simp only [RegState.freeEntityID, RegState.validAt]
  rw [if_neg (by omega)]
  constructor
  · simp only
    rw [getD_set_self _ _ _ (by omega)]
    rfl
  · simp

theorem processOne_entityLen (s : RegState) (id : EntityID) :
    (s.processOne id).entityIndex.length = s.entityIndex.length := by
  simp only [RegState.processOne]
  split_ifs <;> first | rfl | exact freeEntityID_entityLen s id

theorem processOne_genAt (s : RegState) (id : EntityID) (i : Nat) :
    (s.processOne id).genAt i = s.genAt i := by
  simp only [RegState.processOne]
  split_ifs <;> first | rfl | exact freeEntityID_genAt s id i

theorem processOne_freeMem (s : RegState) (id : EntityID) (j : Nat)
    (h : j ∈ s.freeIndices) : j ∈ (s.processOne id).freeIndices := by
  simp only [RegState.processOne]
  split_ifs <;> first | exact h | exact freeEntityID_freeMono s id j h

theorem processOne_freeBound (s : RegState) (id : EntityID)
    (h : ∀ j ∈ s.freeIndices, j < 2 ^ 20) :
    ∀ j ∈ (s.processOne id).freeIndices, j < 2 ^ 20 := by
  simp only [RegState.processOne]
  split_ifs <;> first | exact h | exact freeEntityID_freeBound s id h

theorem processOne_validMono (s : RegState) (id : EntityID) (i : Nat)
    (h : s.validAt i = true) :
    (s.processOne id).validAt i = true ∨
      i ∈ (s.processOne id).freeIndices := by
  simp only [RegState.processOne]
  split_ifs with h1 h2 h3 h4
  any_goals (left; exact h)
  by_cases hi : id.getIndex = i
  · subst hi
    exact Or.inr (freeEntityID_frees s id (by omega)).2
  · rw [freeEntityID_validAt_other s id i hi]
    exact Or.inl h

theorem processFold_entityLen (L : List EntityID) :
    ∀ s : RegState,
      (L.foldl RegState.processOne s).entityIndex.length =
        s.entityIndex.length := by
  induction L with
  | nil => intro s; rfl
  | cons e L ih =>
    intro s
    rw [List.foldl_cons, ih, processOne_entityLen]

theorem processFold_genAt (L : List EntityID) :
    ∀ (s : RegState) (i : Nat),
      (L.foldl RegState.processOne s).genAt i = s.genAt i := by
  induction L with
  | nil => intro s i; rfl
  | cons e L ih =>
    intro s i
    rw [List.foldl_cons, ih, processOne_genAt]

theorem processFold_freeMem (L : List EntityID) :
    ∀ (s : RegState) (j : Nat), j ∈ s.freeIndices →
      j ∈ (L.foldl RegState.processOne s).freeIndices := by
  induction L with
  | nil => intro s j h; exact h
  | cons e L ih =>
    intro s j h
    rw [List.foldl_cons]
    exact ih _ _ (processOne_freeMem s e j h)

theorem processFold_freeBound (L : List EntityID) :
    ∀ s : RegState, (∀ j ∈ s.freeIndices, j < 2 ^ 20) →
      ∀ j ∈ (L.foldl RegState.processOne s).freeIndices, j < 2 ^ 20 := by
  induction L with
  | nil => intro s h; exact h
  | cons e L ih =>
    intro s h
    rw [List.foldl_cons]
    exact ih _ (processOne_freeBound s e h)

theorem processFold_validMono (L : List EntityID) :
    ∀ (s : RegState) (i : Nat), s.validAt i = true →
      (L.foldl RegState.processOne s).validAt i = true ∨
        i ∈ (L.foldl RegState.processOne s).freeIndices := by
  induction L with
  | nil => intro s i h; exact Or.inl h
  | cons e L ih =>
    intro s i h
    rw [List.foldl_cons]
    rcases processOne_validMono s e i h with hv | hm
    · exact ih _ _ hv
    · exact Or.inr (processFold_freeMem L _ _ hm)

theorem processOne_run (s : RegState) (id : EntityID)
    (hvalid : id.isValid = true)
    (hlen : id.getIndex < s.entityIndex.length)
    (hgen : s.genAt id.getIndex = id.getGeneration)
    (hrec : s.validAt id.getIndex = true) :
    s.processOne id = s.freeEntityID id := by
  simp only [RegState.processOne]
  rw [if_neg (by simp [hvalid]), if_neg (by omega),
    if_neg (fun hc => hc hgen), if_neg (fun hc => hc hrec)]

theorem processOne_stuck (s : RegState) (id : EntityID)
    (hgen : s.genAt id.getIndex = id.getGeneration)
    (hrec : s.validAt id.getIndex = false) :
    s.processOne id = s := by
  simp only [RegState.processOne]
  by_cases h1 : id.isValid = true
  · by_cases h2 : s.entityIndex.length ≤ id.getIndex
    · rw [if_neg (by simp [h1]), if_pos h2]
    · rw [if_neg (by simp [h1]), if_neg h2,
        if_neg (fun hc => hc hgen), if_pos]
      intro hc
      have hrec' : (s.entityIndex.getD id.getIndex default).isValid = false :=
        hrec
      rw [hc] at hrec'
      exact absurd hrec' (by simp)
  · rw [if_pos (by simpa using h1)]

/-- After `Destroy(id)` followed by `ProcessDeferredDestructions()` on a
live, generation-matching handle, the record keeps the id's generation,
its pointers are nulled, and the index sits on the free list. -/
theorem destroyProcess_spec (s : RegState) (id : EntityID)
    (hvalid : id.isValid = true)
    (hlen : id.getIndex < s.entityIndex.length)
    (hgen : s.genAt id.getIndex = id.getGeneration)
    (hrec : s.validAt id.getIndex = true) :
    ((s.destroy id).processDeferredDestructions).genAt id.getIndex =
        id.getGeneration ∧
    ((s.destroy id).processDeferredDestructions).validAt id.getIndex =
        false ∧
    id.getIndex ∈
      ((s.destroy id).processDeferredDestructions).freeIndices ∧
    ((s.destroy id).processDeferredDestructions).entityIndex.length =
      s.entityIndex.length := by
  have hfold : (s.destroy id).processDeferredDestructions =
      ((s.pending ++ [id]).foldl RegState.processOne
        (s.destroy id)).clearPending := rfl
  rw [hfold]
  rw [List.foldl_append, List.foldl_cons, List.foldl_nil]
  have hcg : ∀ (t : RegState) (i : Nat), t.clearPending.genAt i = t.genAt i :=
    fun _ _ => rfl
  have hcv : ∀ (t : RegState) (i : Nat),
      t.clearPending.validAt i = t.validAt i := fun _ _ => rfl
  have hcf : ∀ t : RegState, t.clearPending.freeIndices = t.freeIndices :=
    fun _ => rfl
  have hcl : ∀ t : RegState,
      t.clearPending.entityIndex.length = t.entityIndex.length := fun _ => rfl
  rw [hcg, hcv, hcf, hcl]
  have hair : (s.destroy id).genAt id.getIndex = s.genAt id.getIndex := rfl
  have hlen1 : (s.pending.foldl RegState.processOne
        (s.destroy id)).entityIndex.length = s.entityIndex.length := by
    rw [processFold_entityLen]; rfl
  have hgen1 : (s.pending.foldl RegState.processOne
        (s.destroy id)).genAt id.getIndex = id.getGeneration := by
    rw [processFold_genAt]; rw [hair, hgen]
  by_cases hv : (s.pending.foldl RegState.processOne
      (s.destroy id)).validAt id.getIndex = true
  · rw [processOne_run _ id hvalid (by omega) hgen1 hv]
    refine ⟨?_, ?_, ?_, ?_⟩
    · rw [freeEntityID_genAt, hgen1]
    · exact (freeEntityID_frees _ id (by omega)).1
    · exact (freeEntityID_frees _ id (by omega)).2
    · rw [freeEntityID_entityLen, hlen1]
  · have hv' : (s.pending.foldl RegState.processOne
        (s.destroy id)).validAt id.getIndex = false := by
      simp only [Bool.not_eq_true] at hv
      exact hv
    rw [processOne_stuck _ id hgen1 hv']
    have hmem : id.getIndex ∈ (s.pending.foldl RegState.processOne
        (s.destroy id)).freeIndices := by
      rcases processFold_validMono s.pending (s.destroy id) id.getIndex
          hrec with hvv | hmm
      · exact absurd hvv (by simp [hv'])
      · exact hmm
    exact ⟨hgen1, hv', hmem, hlen1⟩

theorem make_getIndex (i g t o : Nat) :
    (EntityID.make i g t o).getIndex = i % 2 ^ 20 := by
  unfold EntityID.make EntityID.getIndex
  simp only
  have h : i % 2 ^ 20 + g % 2 ^ 16 * 2 ^ 20 + t % 2 ^ 12 * 2 ^ 36 +
        o % 2 ^ 8 * 2 ^ 48 =
      i % 2 ^ 20 + 2 ^ 20 *
        (g % 2 ^ 16 + t % 2 ^ 12 * 2 ^ 16 + o % 2 ^ 8 * 2 ^ 28) := by
    ring
  rw [h, Nat.add_mul_mod_self_left]
  exact Nat.mod_mod_of_dvd _ dvd_rfl

theorem make_getGeneration (i g t o : Nat) :
    (EntityID.make i g t o).getGeneration = g % 2 ^ 16 := by
  unfold EntityID.make EntityID.getGeneration
  simp only
  have h : i % 2 ^ 20 + g % 2 ^ 16 * 2 ^ 20 + t % 2 ^ 12 * 2 ^ 36 +
        o % 2 ^ 8 * 2 ^ 48 =
      i % 2 ^ 20 + 2 ^ 20 *
        (g % 2 ^ 16 + 2 ^ 16 * (t % 2 ^ 12 + o % 2 ^ 8 * 2 ^ 12)) := by
    ring
  rw [h, Nat.add_mul_div_left _ _ (by norm_num : 0 < 2 ^ 20),
    Nat.div_eq_of_lt (Nat.mod_lt _ (by norm_num)), Nat.zero_add,
    Nat.add_mul_mod_self_left]
  exact Nat.mod_mod_of_dvd _ dvd_rfl

theorem allocate_fst_getIndex (s : RegState) (t : Nat) :
    ((s.allocateEntityID t).1).getIndex = s.allocIndex := by
  unfold RegState.allocateEntityID RegState.allocIndex
  cases h : s.freeIndices with
  | nil => simp [make_getIndex]
  | cons i rest => simp [make_getIndex]

theorem allocate_snd_entityIndex (s : RegState) (t : Nat) :
    ((s.allocateEntityID t).2).entityIndex = s.entityIndex := by
  unfold RegState.allocateEntityID
  cases h : s.freeIndices <;> simp

theorem allocate_free (s : RegState) (t i : Nat) (rest : List Nat)
    (h : s.freeIndices = i :: rest) :
    (s.allocateEntityID t).1 = EntityID.make i (wrapSucc (s.genAt i)) t 0 ∧
      ((s.allocateEntityID t).2).freeIndices = rest := by
  unfold RegState.allocateEntityID
  rw [h]
  exact ⟨rfl, rfl⟩

theorem updateRecord_genAt_other (s : RegState) (id : EntityID)
    (slot : EntitySlot) (i : Nat) (h : id.getIndex ≠ i) :
    (s.updateRecordOnCreate id slot).genAt i = s.genAt i := by
  simp only [RegState.updateRecordOnCreate, RegState.genAt]
  rw [getD_set_ne _ _ _ _ h]
  split_ifs with hg
  · rw [getD_append_replicate]
  · rfl

theorem updateRecord_freeIndices (s : RegState) (id : EntityID)
    (slot : EntitySlot) :
    (s.updateRecordOnCreate id slot).freeIndices = s.freeIndices := rfl

theorem create_fst (s : RegState) (t : Nat) :
    (s.create t).1 = (s.allocateEntityID t).1 := rfl

theorem create_genAt_other (s : RegState) (t i : Nat)
    (h : s.allocIndex ≠ i) :
    ((s.create t).2).genAt i = s.genAt i := by
  simp only [RegState.create]
  rw [updateRecord_genAt_other _ _ _ _ (by rw [allocate_fst_getIndex]; exact h)]
  unfold RegState.genAt
  rw [show ({ (s.allocateEntityID t).2 with
      arch := (((s.allocateEntityID t).2).arch.pushEntity).2 } :
        RegState).entityIndex = ((s.allocateEntityID t).2).entityIndex
    from rfl]
  rw [allocate_snd_entityIndex]

theorem create_freeIndices (s : RegState) (t : Nat) :
    ((s.create t).2).freeIndices = ((s.allocateEntityID t).2).freeIndices :=
  rfl

theorem create_freeMem (s : RegState) (t j : Nat)
    (hj : j ∈ s.freeIndices) (hne : s.allocIndex ≠ j) (hjlt : j < 2 ^ 20) :
    j ∈ ((s.create t).2).freeIndices := by
  rw [create_freeIndices]
  cases h : s.freeIndices with
  | nil => rw [h] at hj; cases hj
  | cons i rest =>
    rw [(allocate_free s t i rest h).2]
    rw [h] at hj
    rcases List.mem_cons.mp hj with rfl | hj
    · exfalso
      apply hne
      unfold RegState.allocIndex
      rw [h]
      exact Nat.mod_eq_of_lt hjlt
    · exact hj

theorem create_freeBound (s : RegState) (t : Nat)
    (h : ∀ j ∈ s.freeIndices, j < 2 ^ 20) :
    ∀ j ∈ ((s.create t).2).freeIndices, j < 2 ^ 20 := by
  rw [create_freeIndices]
  cases hf : s.freeIndices with
  | nil =>
    unfold RegState.allocateEntityID
    rw [hf]
    intro j hj
    cases hj
  | cons i rest =>
    rw [(allocate_free s t i rest hf).2]
    intro j hj
    exact h j (by rw [hf]; exact List.mem_cons_of_mem _ hj)

theorem process_genAt (s : RegState) (i : Nat) :
    s.processDeferredDestructions.genAt i = s.genAt i := by
  show ((s.pending.foldl RegState.processOne s).clearPending).genAt i = _
  have h : ∀ t : RegState, t.clearPending.genAt i = t.genAt i := fun _ => rfl
  rw [h, processFold_genAt]

theorem process_freeMem (s : RegState) (j : Nat) (h : j ∈ s.freeIndices) :
    j ∈ s.processDeferredDestructions.freeIndices := by
  show j ∈ ((s.pending.foldl RegState.processOne s).clearPending).freeIndices
  have hc : ∀ t : RegState, t.clearPending.freeIndices = t.freeIndices :=
    fun _ => rfl
  rw [hc]
  exact processFold_freeMem _ _ _ h

theorem process_freeBound (s : RegState)
    (h : ∀ j ∈ s.freeIndices, j < 2 ^ 20) :
    ∀ j ∈ s.processDeferredDestructions.freeIndices, j < 2 ^ 20 := by
  show ∀ j ∈ ((s.pending.foldl RegState.processOne s).clearPending).freeIndices,
      j < 2 ^ 20
  have hc : ∀ t : RegState, t.clearPending.freeIndices = t.freeIndices :=
    fun _ => rfl
  rw [hc]
  exact processFold_freeBound _ _ h

theorem avoids_walk (ops : List RegOp) :
    ∀ (s : RegState) (i : Nat), i < 2 ^ 20 →
      (∀ j ∈ s.freeIndices, j < 2 ^ 20) →
      s.avoidsB ops i = true →
      (s.applyOps ops).genAt i = s.genAt i ∧
      (i ∈ s.freeIndices → i ∈ (s.applyOps ops).freeIndices) ∧
      (∀ j ∈ (s.applyOps ops).freeIndices, j < 2 ^ 20) := by
  induction ops with
  | nil =>
    intro s i _ hb _
    exact ⟨rfl, fun h => h, hb⟩
  | cons op rest ih =>
    intro s i hi hb hav
    simp only [RegState.avoidsB, Bool.and_eq_true] at hav
    have happ : s.applyOps (op :: rest) = (s.applyOp op).applyOps rest := rfl
    rw [happ]
    cases op with
    | create t =>
      have hne : s.allocIndex ≠ i := by
        have := hav.1
        simpa using this
      have hstep : (s.applyOp (RegOp.create t)) = (s.create t).2 := rfl
      rw [hstep]
      obtain ⟨w1, w2, w3⟩ := ih ((s.create t).2) i hi
        (create_freeBound s t hb) hav.2
      refine ⟨?_, ?_, w3⟩
      · rw [w1, create_genAt_other s t i hne]
      · intro hm
        exact w2 (create_freeMem s t i hm hne hi)
    | destroy id =>
      have hstep : (s.applyOp (RegOp.destroy id)) = s.destroy id := rfl
      rw [hstep]
      obtain ⟨w1, w2, w3⟩ := ih (s.destroy id) i hi hb hav.2
      exact ⟨w1, w2, w3⟩
    | process =>
      have hstep : (s.applyOp RegOp.process) = s.processDeferredDestructions :=
        rfl
      rw [hstep]
      obtain ⟨w1, w2, w3⟩ := ih s.processDeferredDestructions i hi
        (process_freeBound s hb) hav.2
      refine ⟨?_, ?_, w3⟩
      · rw [w1, process_genAt]
      · intro hm
        exact w2 (process_freeMem s i hm)

theorem getGeneration_lt (id : EntityID) : id.getGeneration < 2 ^ 16 :=
  Nat.mod_lt _ (by norm_num)

theorem getIndex_lt (id : EntityID) : id.getIndex < 2 ^ 20 :=
  Nat.mod_lt _ (by norm_num)

/-! ### C4: recycle monotonicity -/

/-- C4: after `Destroy(id)` + `ProcessDeferredDestructions()` on a live,
generation-matching handle, the next `Create` that reuses `id.Index`
(no intervening create allocates that index) yields a strictly greater
generation, except on 16-bit wrap where the generation becomes 1 (0 is
skipped); the new generation is never 0. -/
theorem C4_recycle_generation
    (s : RegState) (id : EntityID) (tid : Nat) (ops : List RegOp)
    (hvalid : id.isValid = true)
    (hlen : id.getIndex < s.entityIndex.length)
    (hgen : s.genAt id.getIndex = id.getGeneration)
    (hrec : s.validAt id.getIndex = true)
    (hfree : ∀ j ∈ s.freeIndices, j < 2 ^ 20)
    (havoid : ((s.destroy id).processDeferredDestructions).avoidsB ops
        id.getIndex = true)
    (hreuse : (((s.destroy id).processDeferredDestructions).applyOps
        ops).allocIndex = id.getIndex) :
    (id.getGeneration < 65535 →
      ((((s.destroy id).processDeferredDestructions).applyOps
          ops).allocateEntityID tid).1.getGeneration =
        id.getGeneration + 1 ∧
      id.getGeneration <
        ((((s.destroy id).processDeferredDestructions).applyOps
            ops).allocateEntityID tid).1.getGeneration) ∧
    (id.getGeneration = 65535 →
      ((((s.destroy id).processDeferredDestructions).applyOps
          ops).allocateEntityID tid).1.getGeneration = 1) ∧
    ((((s.destroy id).processDeferredDestructions).applyOps
        ops).allocateEntityID tid).1.getGeneration ≠ 0 := by
  obtain ⟨sp1, _, sp3, _⟩ := destroyProcess_spec s id hvalid hlen hgen hrec
  have hb1 : ∀ j ∈ ((s.destroy id).processDeferredDestructions).freeIndices,
      j < 2 ^ 20 := by
    apply process_freeBound
    exact hfree
  obtain ⟨w1, w2, w3⟩ := avoids_walk ops
    ((s.destroy id).processDeferredDestructions) id.getIndex
    (getIndex_lt id) hb1 havoid
  have hg2 : ((((s.destroy id).processDeferredDestructions).applyOps
      ops)).genAt id.getIndex = id.getGeneration := by
    rw [w1, sp1]
  have hm2 := w2 sp3
  cases hf2 : ((((s.destroy id).processDeferredDestructions).applyOps
      ops)).freeIndices with
  | nil => rw [hf2] at hm2; cases hm2
  | cons h0 r0 =>
    have hh0 : h0 = id.getIndex := by
      have hx : ((((s.destroy id).processDeferredDestructions).applyOps
          ops)).allocIndex = h0 % 2 ^ 20 := by
        unfold RegState.allocIndex
        rw [hf2]
      have hb0 : h0 < 2 ^ 20 := w3 h0 (by rw [hf2]; simp)
      rw [hx, Nat.mod_eq_of_lt hb0] at hreuse
      exact hreuse
    obtain ⟨ha1, _⟩ := allocate_free
      ((((s.destroy id).processDeferredDestructions).applyOps ops)) tid
      h0 r0 hf2
    rw [ha1, hh0, hg2, make_getGeneration]
    have hglt : id.getGeneration < 2 ^ 16 := getGeneration_lt id
    have h216 : (2 : Nat) ^ 16 = 65536 := by norm_num
    unfold wrapSucc
    by_cases hw : id.getGeneration = 65535
    · rw [hw]
      norm_num
    · have hlt : id.getGeneration + 1 < 2 ^ 16 := by omega
      rw [if_neg (by rw [Nat.mod_eq_of_lt hlt]; omega),
        Nat.mod_eq_of_lt hlt, Nat.mod_eq_of_lt (by omega)]
      refine ⟨fun _ => ⟨rfl, by omega⟩, fun hc => absurd hc hw, by omega⟩

/-- Concrete scenario for the C4 witness: one entity created from a
fresh registry. -/
def c4reg : RegState := ((RegState.init 4).create 7).2

/-- The id created in the C4 witness scenario. -/
def c4id : EntityID := ((RegState.init 4).create 7).1

/-- The C4 witness registry after destroy + process. -/
def c4reg1 : RegState := (c4reg.destroy c4id).processDeferredDestructions

/-- Witness for C4: create one entity from a fresh registry, destroy it,
process destructions, and re-create: the recycled index 1 carries
generation 2. -/
theorem C4_recycle_generation_witness :
    (c4id.isValid = true ∧
      c4id.getIndex < c4reg.entityIndex.length ∧
      c4reg.genAt c4id.getIndex = c4id.getGeneration ∧
      c4reg.validAt c4id.getIndex = true ∧
      (∀ j ∈ c4reg.freeIndices, j < 2 ^ 20) ∧
      c4reg1.avoidsB [] c4id.getIndex = true ∧
      (c4reg1.applyOps []).allocIndex = c4id.getIndex) ∧
    (c4id.getGeneration < 65535 →
      ((c4reg1.applyOps []).allocateEntityID 7).1.getGeneration =
          c4id.getGeneration + 1 ∧
        c4id.getGeneration <
          ((c4reg1.applyOps []).allocateEntityID 7).1.getGeneration) :=
  ⟨⟨by decide, by decide, by decide, by decide, by decide, by decide,
      by decide⟩,
    (C4_recycle_generation c4reg c4id 7 [] (by decide) (by decide)
      (by decide) (by decide) (by decide) (by decide) (by decide)).1⟩

/-! ### C10: Generation changes only at allocation -/

/-- C10: `FreeEntityID`, `Destroy` and `ProcessDeferredDestructions`
never change any record's `Generation` (only `Create`'s allocation
does, and only at the allocated index); after a processed destruction,
a lookup with the original handle still generation-matches and is
rejected solely by the `Record.IsValid()` null-pointer check. -/
theorem C10_generation_only_on_alloc :
    (∀ (s : RegState) (id : EntityID) (i : Nat),
        (s.freeEntityID id).genAt i = s.genAt i) ∧
    (∀ (s : RegState) (id : EntityID) (i : Nat),
        (s.destroy id).genAt i = s.genAt i) ∧
    (∀ (s : RegState) (i : Nat),
        s.processDeferredDestructions.genAt i = s.genAt i) ∧
    (∀ (s : RegState) (t i : Nat), s.allocIndex ≠ i →
        ((s.create t).2).genAt i = s.genAt i) ∧
    (∀ (s : RegState) (id : EntityID),
      id.isValid = true →
      id.getIndex < s.entityIndex.length →
      s.genAt id.getIndex = id.getGeneration →
      s.validAt id.getIndex = true →
      ((s.destroy id).processDeferredDestructions).genAt id.getIndex =
          id.getGeneration ∧
        ((s.destroy id).processDeferredDestructions).validAt id.getIndex =
          false ∧
        ∀ deref, getComponent
            ((s.destroy id).processDeferredDestructions).entityIndex id
            deref = none) := by
  refine ⟨freeEntityID_genAt, fun _ _ _ => rfl, process_genAt,
    create_genAt_other, ?_⟩
  intro s id hvalid hlen hgen hrec
  obtain ⟨sp1, sp2, _, sp4⟩ := destroyProcess_spec s id hvalid hlen hgen hrec
  refine ⟨sp1, sp2, ?_⟩
  intro deref
  unfold getComponent
  rw [if_neg (by simp [hvalid]), if_neg (by omega),
    if_neg (fun hc => hc sp1), if_pos]
  intro hc
  have hv : (((s.destroy id).processDeferredDestructions).entityIndex.getD
      id.getIndex default).isValid = false := sp2
  rw [hc] at hv
  exact absurd hv (by simp)

/-- Witness for C10 on the concrete single-entity scenario. -/
theorem C10_generation_only_on_alloc_witness :
    (c4id.isValid = true ∧
      c4id.getIndex < c4reg.entityIndex.length ∧
      c4reg.genAt c4id.getIndex = c4id.getGeneration ∧
      c4reg.validAt c4id.getIndex = true) ∧
    (c4reg1.genAt c4id.getIndex = c4id.getGeneration ∧
      c4reg1.validAt c4id.getIndex = false ∧
      getComponent c4reg1.entityIndex c4id (fun _ => some 5) = none) :=
  ⟨⟨by decide, by decide, by decide, by decide⟩, by
    obtain ⟨a, b, c⟩ := C10_generation_only_on_alloc.2.2.2.2 c4reg c4id
      (by decide) (by decide) (by decide) (by decide)
    exact ⟨a, b, c _⟩⟩

/-! ### C8: Create on an unregistered type -/

/-- Outcome of `Registry::Create<T>`: the returned id, the registry
afterwards, and whether the debug assertion / fatal log fired. -/
structure CreateOutcome where
  id : EntityID
  state : RegState
  asserted : Bool
  loggedError : Bool
  deriving Repr, DecidableEq

/-- `Registry::Create<T>` (Registry.h lines 94-151) with the build flag
made explicit. The entire unregistered-type guard sits inside
`#ifdef _DEBUG`: in debug builds an unregistered type logs a fatal
error, asserts, and returns `EntityID{}` (the invalid id) without
creating anything; in release builds the guard is compiled out and the
call falls through to `metaComponents[classID]` (which default-inserts
an empty signature) and creates an entity normally. -/
def createGuarded (debugBuild registered : Bool) (s : RegState)
    (typeID : Nat) : CreateOutcome :=
  if debugBuild ∧ ¬ registered then
    { id := EntityID.invalid, state := s, asserted := true,
      loggedError := true }
  else
    { id := (s.create typeID).1, state := (s.create typeID).2,
      asserted := false, loggedError := false }

/-- C8 (code bug): in a release build (`_DEBUG` undefined), creating an
unregistered type does **not** return the invalid id — the guard is
compiled out, so an entity is allocated and a valid id returned; the
debug half of the claim (assert + fatal log + invalid id) does hold. -/
theorem C8_release_unregistered_creates :
    ((createGuarded false false (RegState.init 4) 7).id.isValid = true ∧
      (createGuarded false false (RegState.init 4) 7).asserted = false ∧
      (createGuarded false false
          (RegState.init 4) 7).state.arch.totalEntityCount = 1) ∧
    ((createGuarded true false (RegState.init 4) 7).id = EntityID.invalid ∧
      (createGuarded true false (RegState.init 4) 7).asserted = true ∧
      (createGuarded true false (RegState.init 4) 7).loggedError = true ∧
      (createGuarded true false
          (RegState.init 4) 7).state.arch.totalEntityCount = 0) := by
  decide

/-! ### FieldProxy mask semantics (FieldProxy.h) -/

/-- `FieldProxyConsts::element_indices` — the lane indices 0..7. -/
def elementIndices : List Int := [0, 1, 2, 3, 4, 5, 6, 7]

/-- The mask computed by `FieldProxy::Bind`:
`_mm256_cmpgt_epi32(_mm256_set1_epi32(startCount), element_indices)` —
lane `j` is set exactly when `startCount > j` as a signed comparison. -/
def bindMask (startCount : Int) : List Bool :=
  elementIndices.map (fun j => startCount > j)

/-- `_mm256_maskstore_ps`-style masked store: lane `j` of `vals` is
written to `arr[idx + j]` exactly when mask lane `j` is set
(`SIMDTraits<…, true>::store`). -/
def maskedStore (mask : List Bool) (arr : List Int) (idx : Nat)
    (vals : Nat → Int) : List Int :=
  (List.range 8).foldl
    (fun a j => if mask.getD j false then a.set (idx + j) (vals j) else a)
    arr

/-- `_mm256_storeu_ps`-style unmasked store
(`SIMDTraits<…, false>::store` ignores the mask): all 8 lanes written. -/
def unmaskedStore (arr : List Int) (idx : Nat) (vals : Nat → Int) :
    List Int :=
  maskedStore [true, true, true, true, true, true, true, true] arr idx vals

theorem storeFold_length (mask : List Bool) (vals : Nat → Int)
    (idx : Nat) : ∀ (n : Nat) (arr : List Int),
      ((List.range n).foldl
        (fun a j => if mask.getD j false then a.set (idx + j) (vals j)
          else a) arr).length = arr.length := by
  intro n
  induction n with
  | zero => intro arr; rfl
  | succ n ih =>
    intro arr
    rw [List.range_succ, List.foldl_append, List.foldl_cons, List.foldl_nil]
    by_cases hm : mask.getD n false
    · rw [if_pos hm, List.length_set, ih]
    · rw [if_neg hm, ih]

theorem storeFold_getD (mask : List Bool) (vals : Nat → Int) (idx : Nat) :
    ∀ (n : Nat) (arr : List Int) (k : Nat),
      ((List.range n).foldl
        (fun a j => if mask.getD j false then a.set (idx + j) (vals j)
          else a) arr).getD k 0 =
      if idx ≤ k ∧ k < idx + n ∧ mask.getD (k - idx) false then
        (if k < arr.length then vals (k - idx) else 0)
      else arr.getD k 0 := by
  intro n
  induction n with
  | zero =>
    intro arr k
    rw [if_neg (by omega)]
    rfl
  | succ n ih =>
    intro arr k
    rw [List.range_succ, List.foldl_append, List.foldl_cons, List.foldl_nil]
    by_cases hm : mask.getD n false
    · rw [if_pos hm]
      by_cases hk : k = idx + n
      · subst hk
        have hsub : idx + n - idx = n := by omega
        rcases Nat.lt_or_ge (idx + n) arr.length with hl | hl
        · rw [getD_set_self _ _ _
            (by rw [storeFold_length]; exact hl)]
          rw [if_pos (by refine ⟨by omega, by omega, ?_⟩; rw [hsub]; exact hm),
            if_pos hl, hsub]
        · have hnone : (((List.range n).foldl
              (fun a j => if mask.getD j false then a.set (idx + j) (vals j)
                else a) arr).set (idx + n) (vals n)).getD (idx + n) 0
                = 0 := by
            rw [List.getD_eq_getElem?_getD]
            have : (((List.range n).foldl
                (fun a j => if mask.getD j false then a.set (idx + j)
                  (vals j) else a) arr).set (idx + n)
                  (vals n))[idx + n]? = none := by
              rw [List.getElem?_eq_none_iff]
              rw [List.length_set, storeFold_length]
              omega
            rw [this]
            rfl
          rw [hnone,
            if_pos (by refine ⟨by omega, by omega, ?_⟩; rw [hsub]; exact hm),
            if_neg (by omega)]
      · rw [getD_set_ne _ _ _ _ (fun he => hk he.symm), ih]
        have hiff : (idx ≤ k ∧ k < idx + n ∧
              mask.getD (k - idx) false = true) ↔
            (idx ≤ k ∧ k < idx + (n + 1) ∧
              mask.getD (k - idx) false = true) := by
          constructor
          · rintro ⟨a, b, c⟩; exact ⟨a, by omega, c⟩
          · rintro ⟨a, b, c⟩; exact ⟨a, by omega, c⟩
        rw [if_congr hiff rfl rfl]
    · rw [if_neg hm, ih]
      have hiff : (idx ≤ k ∧ k < idx + n ∧
            mask.getD (k - idx) false = true) ↔
          (idx ≤ k ∧ k < idx + (n + 1) ∧
            mask.getD (k - idx) false = true) := by
        constructor
        · rintro ⟨a, b, c⟩; exact ⟨a, by omega, c⟩
        · rintro ⟨a, b, c⟩
          refine ⟨a, ?_, c⟩
          rcases Nat.lt_or_ge k (idx + n) with ho | ho
          · exact ho
          · exfalso
            have hke : k = idx + n := by omega
            subst hke
            rw [show idx + n - idx = n from by omega] at c
            exact hm c
      rw [if_congr hiff rfl rfl]

/-! ### C7: Bind mask semantics -/

/-- C7 counterexample: on the masked proxy variant,
`Bind(arr, 0, -1)` produces the all-inactive mask — the signed compare
`startCount > lane` fails for every lane — so a masked store writes
nothing; `startCount = -1` does *not* behave as all 8 lanes active. -/
theorem C7_minus_one_counterexample :
    bindMask (-1) =
      [false, false, false, false, false, false, false, false] ∧
    maskedStore (bindMask (-1)) [3, 3, 3, 3, 3, 3, 3, 3] 0 (fun _ => 9) =
      [3, 3, 3, 3, 3, 3, 3, 3] := by
  decide

/-- C7 (amended): after `Bind(arrayBase, startIndex, startCount)` on the
masked variant, lane `j` is active exactly when `j < startCount` as a
*signed* comparison — a small positive `startCount` leaves exactly lanes
`0..startCount-1` active, and `startCount = -1` leaves *no* lanes active
(the all-8-lanes behaviour of full batches comes from the unmasked
variant, whose store ignores the mask entirely). -/
theorem C7_mask_lanes (startCount : Int) (arr : List Int) (idx j : Nat)
    (vals : Nat → Int) (hj : j < 8) (hlen : idx + 8 ≤ arr.length) :
    ((bindMask startCount).getD j false = true ↔ (j : Int) < startCount) ∧
    (maskedStore (bindMask startCount) arr idx vals).getD (idx + j) 0 =
      (if (j : Int) < startCount then vals j else arr.getD (idx + j) 0) ∧
    (unmaskedStore arr idx vals).getD (idx + j) 0 = vals j := by
  have hmask : (bindMask startCount).getD j false =
      decide ((j : Int) < startCount) := by
    interval_cases j <;> simp [bindMask, elementIndices]
  refine ⟨by rw [hmask]; exact decide_eq_true_iff, ?_, ?_⟩
  · show ((List.range 8).foldl
      (fun a k => if (bindMask startCount).getD k false then
        a.set (idx + k) (vals k) else a) arr).getD (idx + j) 0 = _
    rw [storeFold_getD]
    rw [show idx + j - idx = j from by omega]
    rw [hmask]
    by_cases hc : (j : Int) < startCount
    · rw [if_pos ⟨by omega, by omega, by simp [hc]⟩, if_pos (by omega),
        if_pos hc]
    · rw [if_neg (by simp [hc]), if_neg hc]
  · show ((List.range 8).foldl
      (fun a k => if ([true, true, true, true, true, true, true,
        true] : List Bool).getD k false then
        a.set (idx + k) (vals k) else a) arr).getD (idx + j) 0 = _
    rw [storeFold_getD]
    rw [show idx + j - idx = j from by omega]
    have htrue : ([true, true, true, true, true, true, true,
        true] : List Bool).getD j false = true := by
      interval_cases j <;> rfl
    rw [if_pos ⟨by omega, by omega, htrue⟩, if_pos (by omega)]

/-- Witness for C7 (amended) at `startCount = 3`, lane 2. -/
theorem C7_mask_lanes_witness :
    2 < 8 ∧ 0 + 8 ≤ ([0, 0, 0, 0, 0, 0, 0, 0] : List Int).length ∧
    (((bindMask 3).getD 2 false = true ↔ ((2 : Nat) : Int) < 3) ∧
    (maskedStore (bindMask 3) [0, 0, 0, 0, 0, 0, 0, 0] 0
        (fun k => (k : Int) + 10)).getD (0 + 2) 0 =
      (if ((2 : Nat) : Int) < 3 then ((2 : Nat) : Int) + 10
        else ([0, 0, 0, 0, 0, 0, 0, 0] : List Int).getD (0 + 2) 0) ∧
    (unmaskedStore [0, 0, 0, 0, 0, 0, 0, 0] 0
        (fun k => (k : Int) + 10)).getD (0 + 2) 0 = ((2 : Nat) : Int) + 10) :=
  ⟨by decide, by decide,
    C7_mask_lanes 3 [0, 0, 0, 0, 0, 0, 0, 0] 0 2 (fun k => (k : Int) + 10)
      (by decide) (by decide)⟩

/-! ### C9: ComponentQuery (Registry.h lines 199-214, Signature.h) -/

/-- `Signature::Contains`: `(Bits & Other.Bits) == Other.Bits` on the
256-bit component bitset (modelled as a `Nat` bitmask). -/
def sigContains (bits other : Nat) : Bool := Nat.land bits other == other

/-- `Registry::BuildSignature<Components...>`: fold of
`Sig.Set(GetComponentTypeID<C>() - 1)` over the requested components. -/
def buildSignature (tids : List Nat) : Nat :=
  tids.foldl (fun s t => s ||| 2 ^ (t - 1)) 0

/-- The `ComponentQuery` loop: `Results` is pre-sized to
`Archetypes.size()` with null entries, every archetype is written to the
current slot, and the write pointer advances only when the archetype's
signature contains the query signature. -/
def componentQueryGo (q : Nat) :
    List (Nat × Nat) → List (Option Nat) → Nat → List (Option Nat)
  | [], res, _ => res
  | a :: rest, res, p =>
    componentQueryGo q rest (res.set p (some a.2))
      (p + if sigContains a.1 q then 1 else 0)

/-- `Registry::ComponentQuery` over an archetype table given as a list
of (signature bits, archetype) pairs in iteration order. -/
def componentQuery (archs : List (Nat × Nat)) (q : Nat) :
    List (Option Nat) :=
  componentQueryGo q archs (List.replicate archs.length none) 0

/-- C9 counterexample: with archetypes `{sig 1 ↦ 10, sig 2 ↦ 20}` and a
query signature of bit 0, archetype 20 does not contain the query yet
appears in the returned vector; with a third matching archetype, a
default-constructed null entry also remains. -/
theorem C9_residual_counterexample :
    componentQuery [(1, 10), (2, 20)] (buildSignature [1]) =
      [some 10, some 20] ∧
    sigContains 2 (buildSignature [1]) = false ∧
    componentQuery [(1, 10), (2, 20), (1, 30)] (buildSignature [1]) =
      [some 10, some 30, none] := by
  decide

theorem componentQueryGo_spec (q : Nat) :
    ∀ (archs : List (Nat × Nat)) (res : List (Option Nat)) (p : Nat),
      p + archs.length ≤ res.length →
      (componentQueryGo q archs res p).length = res.length ∧
      (∀ i, i < p →
        (componentQueryGo q archs res p).getD i none = res.getD i none) ∧
      (∀ i, i < (archs.filter (fun a => sigContains a.1 q)).length →
        (componentQueryGo q archs res p).getD (p + i) none =
          ((archs.filter (fun a => sigContains a.1 q)).map
            (fun a => some a.2)).getD i none) := by
  intro archs
  induction archs with
  | nil =>
    intro res p _
    refine ⟨rfl, fun i _ => rfl, fun i hi => ?_⟩
    simp at hi
  | cons a rest ih =>
    intro res p hp
    have hplen : p < res.length := by
      simp only [List.length_cons] at hp
      omega
    by_cases hm : sigContains a.1 q
    · have hgo : componentQueryGo q (a :: rest) res p =
          componentQueryGo q rest (res.set p (some a.2)) (p + 1) := by
        simp [componentQueryGo, hm]
      obtain ⟨ih1, ih2, ih3⟩ := ih (res.set p (some a.2)) (p + 1)
        (by simp only [List.length_set, List.length_cons] at hp ⊢; omega)
      rw [hgo]
      refine ⟨by rw [ih1]; simp, ?_, ?_⟩
      · intro i hi
        rw [ih2 i (by omega), getD_set_ne _ _ _ _ (by omega)]
      · intro i hi
        have hfilter : (a :: rest).filter (fun a => sigContains a.1 q) =
            a :: rest.filter (fun a => sigContains a.1 q) := by
          simp [List.filter_cons, hm]
        rw [hfilter]
        cases i with
        | zero =>
          simp only [Nat.add_zero]
          rw [ih2 p (by omega), getD_set_self _ _ _ hplen]
          rfl
        | succ i' =>
          rw [hfilter] at hi
          have : p + (i' + 1) = (p + 1) + i' := by omega
          rw [this, ih3 i' (by simp at hi ⊢; omega)]
          simp
    · have hgo : componentQueryGo q (a :: rest) res p =
          componentQueryGo q rest (res.set p (some a.2)) p := by
        simp [componentQueryGo, hm]
      obtain ⟨ih1, ih2, ih3⟩ := ih (res.set p (some a.2)) p
        (by simp only [List.length_set, List.length_cons] at hp ⊢; omega)
      rw [hgo]
      have hfilter : (a :: rest).filter (fun a => sigContains a.1 q) =
          rest.filter (fun a => sigContains a.1 q) := by
        simp [List.filter_cons, hm]
      refine ⟨by rw [ih1]; simp, ?_, ?_⟩
      · intro i hi
        rw [ih2 i hi, getD_set_ne _ _ _ _ (by omega)]
      · intro i hi
        rw [hfilter] at hi
        rw [hfilter, ih3 i hi]

/-- C9 (amended): `ComponentQuery` returns a vector whose length equals
the total number of archetypes; its first `k` entries (`k` = number of
archetypes whose signature contains the query signature) are exactly
the matching archetypes in iteration order, and only the entries past
the first `k` may hold a residual non-matching archetype or a
default-constructed null. -/
theorem C9_query_prefix (archs : List (Nat × Nat)) (q : Nat) :
    (componentQuery archs q).length = archs.length ∧
    (componentQuery archs q).take
        ((archs.filter (fun a => sigContains a.1 q)).length) =
      (archs.filter (fun a => sigContains a.1 q)).map
        (fun a => some a.2) := by
  obtain ⟨h1, _, h3⟩ := componentQueryGo_spec q archs
    (List.replicate archs.length none) 0 (by simp)
  have hlen : (componentQuery archs q).length = archs.length := by
    unfold componentQuery
    rw [h1, List.length_replicate]
  have hk : (archs.filter (fun a => sigContains a.1 q)).length ≤
      archs.length := List.length_filter_le _ _
  refine ⟨hlen, ?_⟩
  apply List.ext_getElem?
  intro i
  by_cases hi : i < (archs.filter (fun a => sigContains a.1 q)).length
  · rw [List.getElem?_take, if_pos hi]
    have hgd : (componentQuery archs q).getD i none =
        ((archs.filter (fun a => sigContains a.1 q)).map
          (fun a => some a.2)).getD i none := by
      have := h3 i hi
      rw [Nat.zero_add] at this
      exact this
    have hilen : i < (componentQuery archs q).length := by omega
    have himap : i < ((archs.filter (fun a => sigContains a.1 q)).map
        (fun a => some a.2)).length := by
      rw [List.length_map]
      exact hi
    rw [List.getD_eq_getElem?_getD, List.getD_eq_getElem?_getD,
      List.getElem?_eq_getElem hilen, List.getElem?_eq_getElem himap]
        at hgd
    rw [List.getElem?_eq_getElem hilen, List.getElem?_eq_getElem himap]
    simpa using hgd
  · rw [List.getElem?_eq_none_iff.mpr, List.getElem?_eq_none_iff.mpr]
    · rw [List.length_map]
      omega
    · rw [List.length_take]
      omega

/-! ### C1: batched (SIMD) vs scalar lifecycle execution
(Schema.h `InvokeUpdateImpl`, FieldProxy.h, SoARef.h) -/

/-- A field-array table: field id → index → value. Field values are
modelled as integers; both execution paths apply identical elementwise
operations, so the carrier is immaterial. -/
def Mem : Type := Nat → Nat → Int

/-- Expressions a lifecycle method can compute for the right-hand side
of a (compound) assignment: constants (functions of `dt`), reads through
`FieldProxy::operator FieldType()` (which returns `array[index]` — the
lane-0 element of the current group), and arithmetic on those. -/
inductive Expr where
  | const : Int → Expr
  | read : Nat → Expr
  | add : Expr → Expr → Expr
  | mul : Expr → Expr → Expr
  deriving Repr, DecidableEq

/-- Evaluate an expression with the proxies' current index at `idx`. -/
def evalExpr (m : Mem) (idx : Nat) : Expr → Int
  | .const v => v
  | .read f => m f idx
  | .add a b => evalExpr m idx a + evalExpr m idx b
  | .mul a b => evalExpr m idx a * evalExpr m idx b

/-- One statement of a lifecycle method: `field = e`, `field += e`,
`field -= e`, `field *= e` through the FieldProxy operators. -/
inductive Stmt where
  | assign : Nat → Expr → Stmt
  | addAssign : Nat → Expr → Stmt
  | subAssign : Nat → Expr → Stmt
  | mulAssign : Nat → Expr → Stmt
  deriving Repr, DecidableEq

/-- SIMD path: write the 8 lanes at base `b` of field `f` where the
lane mask is set (`SIMDTraits::store`), recording the store events. -/
def writeLanes (mask : Nat → Bool) (f b : Nat) (vals : Nat → Int)
    (m : Mem) : Mem × List (Nat × Nat) :=
  (fun f' i' =>
    if f' = f ∧ b ≤ i' ∧ i' < b + 8 ∧ mask (i' - b) then vals (i' - b)
    else m f' i',
   ((List.range 8).filter (fun j => mask j)).map (fun j => (f, b + j)))

/-- SIMD path, one statement (FieldProxy.h `operator=`, `operator+=`,
`operator-=`, `operator*=`): the RHS is evaluated once
(`set1`-broadcast, reads see `array[index]` = lane 0 of the group), the
compound forms load all 8 lanes, combine elementwise, and mask-store. -/
def execStmtVec (mask : Nat → Bool) (b : Nat) (m : Mem) :
    Stmt → Mem × List (Nat × Nat)
  | .assign f e => writeLanes mask f b (fun _ => evalExpr m b e) m
  | .addAssign f e =>
    writeLanes mask f b (fun j => m f (b + j) + evalExpr m b e) m
  | .subAssign f e =>
    writeLanes mask f b (fun j => m f (b + j) - evalExpr m b e) m
  | .mulAssign f e =>
    writeLanes mask f b (fun j => m f (b + j) * evalExpr m b e) m

/-- SIMD path, one lifecycle-method invocation on a lane group. -/
def execMethodVec (mask : Nat → Bool) (b : Nat) :
    List Stmt → Mem → Mem × List (Nat × Nat)
  | [], m => (m, [])
  | st :: rest, m =>
    ((execMethodVec mask b rest (execStmtVec mask b m st).1).1,
      (execStmtVec mask b m st).2 ++
        (execMethodVec mask b rest (execStmtVec mask b m st).1).2)

/-- Mask of the full-batch view: the unmasked store writes all 8
lanes. -/
def fullMask : Nat → Bool := fun _ => true

/-- Mask of the tail view hydrated with `count = entityCount % 8`
(FieldProxy `Bind` mask, cf. `bindMask`). -/
def tailMask (count : Nat) : Nat → Bool :=
  fun j => (bindMask (count : Int)).getD j false

/-- The full-batch loop of `InvokeUpdateImpl`: `count` batches starting
at base `b`, advancing 8 lanes per iteration. -/
def runFullBatches (M : List Stmt) :
    Nat → Nat → Mem → Mem × List (Nat × Nat)
  | 0, _, m => (m, [])
  | g + 1, b, m =>
    ((runFullBatches M g (b + 8) (execMethodVec fullMask b M m).1).1,
      (execMethodVec fullMask b M m).2 ++
        (runFullBatches M g (b + 8) (execMethodVec fullMask b M m).1).2)

/-- `InvokeUpdateImpl` (Schema.h lines 78-101): `batchCount = N / 8`
full 8-wide batches, then one masked tail view hydrated at
`8 * batchCount` with count `N % 8`. -/
def invokeBatched (M : List Stmt) (N : Nat) (m : Mem) :
    Mem × List (Nat × Nat) :=
  ((execMethodVec (tailMask (N % 8)) (8 * (N / 8)) M
      (runFullBatches M (N / 8) 0 m).1).1,
    (runFullBatches M (N / 8) 0 m).2 ++
      (execMethodVec (tailMask (N % 8)) (8 * (N / 8)) M
        (runFullBatches M (N / 8) 0 m).1).2)

/-- Scalar path: pointwise update of one element. -/
def writeMem (m : Mem) (f i : Nat) (v : Int) : Mem :=
  fun f' i' => if f' = f ∧ i' = i then v else m f' i'

/-- Scalar path, one statement (SoARef.h scalar FieldProxy):
`array[index] op= value`. -/
def execStmtScalar (i : Nat) (m : Mem) : Stmt → Mem
  | .assign f e => writeMem m f i (evalExpr m i e)
  | .addAssign f e => writeMem m f i (m f i + evalExpr m i e)
  | .subAssign f e => writeMem m f i (m f i - evalExpr m i e)
  | .mulAssign f e => writeMem m f i (m f i * evalExpr m i e)

/-- Scalar path, one lifecycle-method invocation on entity `i`. -/
def execMethodScalar (i : Nat) : List Stmt → Mem → Mem
  | [], m => m
  | st :: rest, m => execMethodScalar i rest (execStmtScalar i m st)

/-- Scalar reference execution: the method run once per entity,
entities 0..N-1 in order (Registry.cpp per-entity Hydrate + call). -/
def runScalar (M : List Stmt) : Nat → Mem → Mem
  | 0, m => m
  | n + 1, m => execMethodScalar n M (runScalar M n m)

/-- Field arrays for the C1 counterexample: field 1 holds `[5, 7, …]`. -/
def c1mem : Mem := fun f i => if f = 1 then (if i = 0 then 5 else 7) else 0

/-- C1 counterexample: the method `field0 = (float)field1` — built only
from a FieldProxy read and an assignment — diverges between the batched
and scalar paths at N = 2: the read returns lane 0's value (`array[index]`)
and the store broadcasts it, so the batched path writes 5 into index 1
where the scalar path writes 7. -/
theorem C1_broadcast_counterexample :
    (invokeBatched [Stmt.assign 0 (Expr.read 1)] 2 c1mem).1 0 1 = 5 ∧
    runScalar [Stmt.assign 0 (Expr.read 1)] 2 c1mem 0 1 = 7 ∧
    (5 : Int) ≠ 7 := by
  refine ⟨?_, ?_, by decide⟩ <;> decide

/-- An expression that performs no FieldProxy read (its value is a
function of `dt`/constants only). -/
def Expr.readFree : Expr → Bool
  | .const _ => true
  | .read _ => false
  | .add a b => a.readFree && b.readFree
  | .mul a b => a.readFree && b.readFree

/-- A statement whose right-hand side is read-free. -/
def Stmt.readFree : Stmt → Bool
  | .assign _ e => e.readFree
  | .addAssign _ e => e.readFree
  | .subAssign _ e => e.readFree
  | .mulAssign _ e => e.readFree

/-- A method (statement list) whose RHS expressions are all read-free. -/
def methodReadFree (M : List Stmt) : Bool := M.all Stmt.readFree

/-- Value of a read-free expression (independent of memory and index). -/
def evalExpr0 : Expr → Int
  | .const v => v
  | .read _ => 0
  | .add a b => evalExpr0 a + evalExpr0 b
  | .mul a b => evalExpr0 a * evalExpr0 b

theorem evalExpr_readFree (e : Expr) (h : e.readFree = true) :
    ∀ (m : Mem) (i : Nat), evalExpr m i e = evalExpr0 e := by
  induction e with
  | const v => intro m i; rfl
  | read f => exact absurd h (by simp [Expr.readFree])
  | add a b iha ihb =>
    intro m i
    simp only [Expr.readFree, Bool.and_eq_true] at h
    simp only [evalExpr, evalExpr0, iha h.1, ihb h.2]
  | mul a b iha ihb =>
    intro m i
    simp only [Expr.readFree, Bool.and_eq_true] at h
    simp only [evalExpr, evalExpr0, iha h.1, ihb h.2]

/-- Per-element ("column") semantics of one read-free statement. -/
def runColStmt (c : Nat → Int) : Stmt → Nat → Int
  | .assign f e => fun f' => if f' = f then evalExpr0 e else c f'
  | .addAssign f e => fun f' => if f' = f then c f + evalExpr0 e else c f'
  | .subAssign f e => fun f' => if f' = f then c f - evalExpr0 e else c f'
  | .mulAssign f e => fun f' => if f' = f then c f * evalExpr0 e else c f'

/-- Per-element semantics of a read-free method. -/
def runColMethod : List Stmt → (Nat → Int) → Nat → Int
  | [], c => c
  | st :: rest, c => runColMethod rest (runColStmt c st)

/-- The column of memory at index `i`. -/
def colAt (m : Mem) (i : Nat) : Nat → Int := fun f => m f i

theorem execStmtVec_readFree (mask : Nat → Bool) (b : Nat) (st : Stmt)
    (h : st.readFree = true) (m : Mem) (f i : Nat) :
    (execStmtVec mask b m st).1 f i =
      if b ≤ i ∧ i < b + 8 ∧ mask (i - b) then runColStmt (colAt m i) st f
      else m f i := by
  cases st with
  | assign f0 e =>
    simp only [Stmt.readFree] at h
    simp only [execStmtVec, writeLanes, runColStmt, colAt,
      evalExpr_readFree e h]
    by_cases hact : b ≤ i ∧ i < b + 8 ∧ mask (i - b)
    · rw [if_pos hact]
      by_cases hf : f = f0
      · rw [if_pos ⟨hf, hact.1, hact.2.1, hact.2.2⟩, if_pos hf]
      · rw [if_neg (fun hc => hf hc.1), if_neg hf]
    · rw [if_neg hact, if_neg (fun hc => hact ⟨hc.2.1, hc.2.2⟩)]
  | addAssign f0 e =>
    simp only [Stmt.readFree] at h
    simp only [execStmtVec, writeLanes, runColStmt, colAt,
      evalExpr_readFree e h]
    by_cases hact : b ≤ i ∧ i < b + 8 ∧ mask (i - b)
    · rw [if_pos hact]
      by_cases hf : f = f0
      · rw [if_pos ⟨hf, hact.1, hact.2.1, hact.2.2⟩, if_pos hf,
          show b + (i - b) = i from by omega]
      · rw [if_neg (fun hc => hf hc.1), if_neg hf]
    · rw [if_neg hact, if_neg (fun hc => hact ⟨hc.2.1, hc.2.2⟩)]
  | subAssign f0 e =>
    simp only [Stmt.readFree] at h
    simp only [execStmtVec, writeLanes, runColStmt, colAt,
      evalExpr_readFree e h]
    by_cases hact : b ≤ i ∧ i < b + 8 ∧ mask (i - b)
    · rw [if_pos hact]
      by_cases hf : f = f0
      · rw [if_pos ⟨hf, hact.1, hact.2.1, hact.2.2⟩, if_pos hf,
          show b + (i - b) = i from by omega]
      · rw [if_neg (fun hc => hf hc.1), if_neg hf]
    · rw [if_neg hact, if_neg (fun hc => hact ⟨hc.2.1, hc.2.2⟩)]
  | mulAssign f0 e =>
    simp only [Stmt.readFree] at h
    simp only [execStmtVec, writeLanes, runColStmt, colAt,
      evalExpr_readFree e h]
    by_cases hact : b ≤ i ∧ i < b + 8 ∧ mask (i - b)
    · rw [if_pos hact]
      by_cases hf : f = f0
      · rw [if_pos ⟨hf, hact.1, hact.2.1, hact.2.2⟩, if_pos hf,
          show b + (i - b) = i from by omega]
      · rw [if_neg (fun hc => hf hc.1), if_neg hf]
    · rw [if_neg hact, if_neg (fun hc => hact ⟨hc.2.1, hc.2.2⟩)]

theorem execMethodVec_readFree (mask : Nat → Bool) (b : Nat)
    (M : List Stmt) (h : methodReadFree M = true) :
    ∀ (m : Mem) (f i : Nat),
      (execMethodVec mask b M m).1 f i =
        if b ≤ i ∧ i < b + 8 ∧ mask (i - b) then
          runColMethod M (colAt m i) f
        else m f i := by
  induction M with
  | nil =>
    intro m f i
    simp only [execMethodVec, runColMethod]
    split_ifs <;> rfl
  | cons st rest ih =>
    intro m f i
    simp only [methodReadFree, List.all_cons, Bool.and_eq_true] at h
    have hrest : methodReadFree rest = true := h.2
    simp only [execMethodVec]
    rw [ih hrest]
    by_cases hact : b ≤ i ∧ i < b + 8 ∧ mask (i - b)
    · rw [if_pos hact, if_pos hact]
      have hcol : colAt (execStmtVec mask b m st).1 i =
          runColStmt (colAt m i) st := by
        funext f'
        show (execStmtVec mask b m st).1 f' i = _
        rw [execStmtVec_readFree mask b st h.1, if_pos hact]
      rw [hcol]
      rfl
    · rw [if_neg hact]
      rw [execStmtVec_readFree mask b st h.1, if_neg hact, if_neg hact]

theorem runFullBatches_readFree (M : List Stmt)
    (h : methodReadFree M = true) :
    ∀ (count b : Nat) (m : Mem) (f i : Nat),
      (runFullBatches M count b m).1 f i =
        if b ≤ i ∧ i < b + 8 * count then runColMethod M (colAt m i) f
        else m f i := by
  intro count
  induction count with
  | zero =>
    intro b m f i
    rw [if_neg (by omega)]
    rfl
  | succ count ih =>
    intro b m f i
    simp only [runFullBatches]
    rw [ih (b + 8)]
    have hstep := execMethodVec_readFree fullMask b M h m
    by_cases h1 : b ≤ i ∧ i < b + 8
    · rw [if_neg (by omega), hstep, if_pos ⟨h1.1, h1.2, rfl⟩,
        if_pos (by omega)]
    · by_cases h2 : b + 8 ≤ i ∧ i < b + 8 + 8 * count
      · rw [if_pos h2]
        have hcol : colAt (execMethodVec fullMask b M m).1 i = colAt m i := by
          funext f'
          show (execMethodVec fullMask b M m).1 f' i = m f' i
          rw [hstep, if_neg (by intro hc; exact h1 ⟨hc.1, hc.2.1⟩)]
        rw [hcol, if_pos (by omega)]
      · rw [if_neg h2, hstep,
          if_neg (by intro hc; exact h1 ⟨hc.1, hc.2.1⟩),
          if_neg (by omega)]

theorem execStmtScalar_readFree (j : Nat) (st : Stmt)
    (h : st.readFree = true) (m : Mem) (f i : Nat) :
    execStmtScalar j m st f i =
      if i = j then runColStmt (colAt m j) st f else m f i := by
  cases st with
  | assign f0 e =>
    simp only [Stmt.readFree] at h
    simp only [execStmtScalar, writeMem, runColStmt, colAt,
      evalExpr_readFree e h]
    by_cases hi : i = j
    · subst hi
      by_cases hf : f = f0
      · rw [if_pos ⟨hf, rfl⟩, if_pos rfl, if_pos hf]
      · rw [if_neg (fun hc => hf hc.1), if_pos rfl, if_neg hf]
    · rw [if_neg (fun hc => hi hc.2), if_neg hi]
  | addAssign f0 e =>
    simp only [Stmt.readFree] at h
    simp only [execStmtScalar, writeMem, runColStmt, colAt,
      evalExpr_readFree e h]
    by_cases hi : i = j
    · subst hi
      by_cases hf : f = f0
      · rw [if_pos ⟨hf, rfl⟩, if_pos rfl, if_pos hf]
      · rw [if_neg (fun hc => hf hc.1), if_pos rfl, if_neg hf]
    · rw [if_neg (fun hc => hi hc.2), if_neg hi]
  | subAssign f0 e =>
    simp only [Stmt.readFree] at h
    simp only [execStmtScalar, writeMem, runColStmt, colAt,
      evalExpr_readFree e h]
    by_cases hi : i = j
    · subst hi
      by_cases hf : f = f0
      · rw [if_pos ⟨hf, rfl⟩, if_pos rfl, if_pos hf]
      · rw [if_neg (fun hc => hf hc.1), if_pos rfl, if_neg hf]
    · rw [if_neg (fun hc => hi hc.2), if_neg hi]
  | mulAssign f0 e =>
    simp only [Stmt.readFree] at h
    simp only [execStmtScalar, writeMem, runColStmt, colAt,
      evalExpr_readFree e h]
    by_cases hi : i = j
    · subst hi
      by_cases hf : f = f0
      · rw [if_pos ⟨hf, rfl⟩, if_pos rfl, if_pos hf]
      · rw [if_neg (fun hc => hf hc.1), if_pos rfl, if_neg hf]
    · rw [if_neg (fun hc => hi hc.2), if_neg hi]

theorem execMethodScalar_readFree (j : Nat) (M : List Stmt)
    (h : methodReadFree M = true) :
    ∀ (m : Mem) (f i : Nat),
      execMethodScalar j M m f i =
        if i = j then runColMethod M (colAt m j) f else m f i := by
  induction M with
  | nil =>
    intro m f i
    simp only [execMethodScalar, runColMethod, colAt]
    split_ifs with hij
    · rw [hij]
    · rfl
  | cons st rest ih =>
    intro m f i
    simp only [methodReadFree, List.all_cons, Bool.and_eq_true] at h
    simp only [execMethodScalar]
    rw [ih h.2]
    by_cases hi : i = j
    · rw [if_pos hi, if_pos hi]
      have hcol : colAt (execStmtScalar j m st) j =
          runColStmt (colAt m j) st := by
        funext f'
        show execStmtScalar j m st f' j = _
        rw [execStmtScalar_readFree j st h.1, if_pos rfl]
      rw [hcol]
      rfl
    · rw [if_neg hi, execStmtScalar_readFree j st h.1, if_neg hi,
        if_neg hi]

theorem runScalar_readFree (M : List Stmt) (h : methodReadFree M = true) :
    ∀ (N : Nat) (m : Mem) (f i : Nat),
      runScalar M N m f i =
        if i < N then runColMethod M (colAt m i) f else m f i := by
  intro N
  induction N with
  | zero =>
    intro m f i
    rw [if_neg (by omega)]
    rfl
  | succ N ih =>
    intro m f i
    simp only [runScalar]
    rw [execMethodScalar_readFree N M h]
    by_cases hi : i = N
    · rw [if_pos hi, if_pos (by omega)]
      have hcol : colAt (runScalar M N m) N = colAt m N := by
        funext f'
        show runScalar M N m f' N = m f' N
        rw [ih, if_neg (by omega)]
      rw [hcol, hi]
    · rw [if_neg hi, ih]
      by_cases hlt : i < N
      · rw [if_pos hlt, if_pos (by omega)]
      · rw [if_neg hlt, if_neg (by omega)]

theorem tailMask_lt (c j : Nat) (hj : j < 8) :
    tailMask c j = decide (j < c) := by
  interval_cases j <;>
    (simp only [tailMask, bindMask, elementIndices, List.map_cons,
      List.getD_eq_getElem?_getD, List.getElem?_cons_zero,
      List.getElem?_cons_succ, Option.getD_some]
     rw [decide_eq_decide]
     constructor <;> intro <;> omega)

theorem writeLanes_events (mask : Nat → Bool) (f b : Nat)
    (vals : Nat → Int) (m : Mem) (ev : Nat × Nat)
    (h : ev ∈ (writeLanes mask f b vals m).2) :
    ∃ j, j < 8 ∧ mask j = true ∧ ev.2 = b + j := by
  simp only [writeLanes, List.mem_map, List.mem_filter,
    List.mem_range] at h
  obtain ⟨j, ⟨hj8, hm⟩, hev⟩ := h
  exact ⟨j, hj8, hm, by rw [← hev]⟩

theorem execStmtVec_events (mask : Nat → Bool) (b : Nat) (st : Stmt)
    (m : Mem) (ev : Nat × Nat)
    (h : ev ∈ (execStmtVec mask b m st).2) :
    ∃ j, j < 8 ∧ mask j = true ∧ ev.2 = b + j := by
  cases st <;> exact writeLanes_events _ _ _ _ _ _ h

theorem execMethodVec_events (mask : Nat → Bool) (b : Nat)
    (M : List Stmt) :
    ∀ (m : Mem) (ev : Nat × Nat), ev ∈ (execMethodVec mask b M m).2 →
      ∃ j, j < 8 ∧ mask j = true ∧ ev.2 = b + j := by
  induction M with
  | nil =>
    intro m ev h
    cases h
  | cons st rest ih =>
    intro m ev h
    simp only [execMethodVec, List.mem_append] at h
    rcases h with h | h
    · exact execStmtVec_events mask b st m ev h
    · exact ih _ ev h

theorem runFullBatches_events (M : List Stmt) :
    ∀ (count b : Nat) (m : Mem) (ev : Nat × Nat),
      ev ∈ (runFullBatches M count b m).2 →
      b ≤ ev.2 ∧ ev.2 < b + 8 * count := by
  intro count
  induction count with
  | zero =>
    intro b m ev h
    cases h
  | succ count ih =>
    intro b m ev h
    simp only [runFullBatches, List.mem_append] at h
    rcases h with h | h
    · obtain ⟨j, hj8, _, hj⟩ := execMethodVec_events fullMask b M m ev h
      omega
    · have := ih (b + 8) _ ev h
      omega

/-- C1 (amended): the batched invoker performs no store at any array
index ≥ N (for *every* method built from FieldProxy reads and
assignments), and for methods whose right-hand sides are read-free
(constants/functions of `dt` only) it leaves every field-array element
with exactly the values of the scalar one-entity-at-a-time execution.
With proxy *reads* feeding assigned values the equivalence fails (see
the counterexample): a read returns lane 0's element and the store
broadcasts it across the group. -/
theorem C1_batched_scalar_equivalence (M : List Stmt) (N : Nat)
    (m : Mem) (_hN : 1 ≤ N) :
    (∀ ev ∈ (invokeBatched M N m).2, ev.2 < N) ∧
    (methodReadFree M = true →
      ∀ f i, (invokeBatched M N m).1 f i = runScalar M N m f i) := by
  have hdm := Nat.div_add_mod N 8
  constructor
  · intro ev hev
    simp only [invokeBatched, List.mem_append] at hev
    rcases hev with hev | hev
    · have := runFullBatches_events M (N / 8) 0 m ev hev
      omega
    · obtain ⟨j, hj8, hmask, hj⟩ :=
        execMethodVec_events (tailMask (N % 8)) (8 * (N / 8)) M _ ev hev
      rw [tailMask_lt _ _ hj8] at hmask
      have hjc : j < N % 8 := of_decide_eq_true hmask
      omega
  · intro hrf f i
    show (execMethodVec (tailMask (N % 8)) (8 * (N / 8)) M
        (runFullBatches M (N / 8) 0 m).1).1 f i = _
    rw [execMethodVec_readFree _ _ _ hrf, runScalar_readFree _ hrf]
    have hfull := runFullBatches_readFree M hrf (N / 8) 0 m
    have hcol : colAt (runFullBatches M (N / 8) 0 m).1 i =
        (if i < 8 * (N / 8) then runColMethod M (colAt m i) else colAt m i) := by
      funext f'
      show (runFullBatches M (N / 8) 0 m).1 f' i = _
      rw [hfull f' i]
      by_cases h1 : i < 8 * (N / 8)
      · rw [if_pos (by omega), if_pos h1]
      · rw [if_neg (by omega), if_neg h1]
        rfl
    by_cases h1 : i < 8 * (N / 8)
    · rw [if_neg (by omega), hfull, if_pos (by omega), if_pos (by omega)]
    · by_cases h2 : i < N
      · have hmask : tailMask (N % 8) (i - 8 * (N / 8)) = true := by
          rw [tailMask_lt _ _ (by omega)]
          exact decide_eq_true (by omega)
        rw [if_pos ⟨by omega, by omega, hmask⟩, hcol, if_neg h1,
          if_pos h2]
      · rw [if_neg, hfull, if_neg (by omega), if_neg (by omega)]
        intro hc
        rw [tailMask_lt _ _ (by omega)] at hc
        have := of_decide_eq_true hc.2.2
        omega

/-- Witness for C1 (amended) at a read-free one-statement method,
N = 11 (one full batch of 8 plus a 3-lane tail). -/
theorem C1_batched_scalar_equivalence_witness :
    1 ≤ 11 ∧
    ((∀ ev ∈ (invokeBatched [Stmt.addAssign 0 (Expr.const 2)] 11
        c1mem).2, ev.2 < 11) ∧
      (methodReadFree [Stmt.addAssign 0 (Expr.const 2)] = true →
        ∀ f i,
          (invokeBatched [Stmt.addAssign 0 (Expr.const 2)] 11 c1mem).1
              f i =
            runScalar [Stmt.addAssign 0 (Expr.const 2)] 11 c1mem f i)) :=
  ⟨by decide,
    C1_batched_scalar_equivalence [Stmt.addAssign 0 (Expr.const 2)] 11
      c1mem (by decide)⟩

end Strigid
